import Mathlib

/-!
Verification development for the react-pptx normalizer
(src/src/normalizer.ts).  The TypeScript source is shallowly embedded:
JavaScript objects with optional keys are modelled by association lists
and a three-state field type (absent key / key present with value
undefined / key present with a value), numbers by rationals, and
throwing functions by the Except monad.
-/

namespace ReactPptx

/-- A primitive JavaScript value as it occurs in style records and props:
string, number (modelled as a rational), boolean, or null. -/
inductive JVal where
  | str (s : String)
  | num (n : Rat)
  | bool (b : Bool)
  | jnull
deriving DecidableEq, Repr

/-- JavaScript truthiness of a defined value
(empty string, 0, false and null are falsy). -/
def JVal.truthy : JVal → Bool
  | .str s => !s.isEmpty
  | .num n => n != 0
  | .bool b => b
  | .jnull => false

/-- Rendering of a number the way string conversion would show it;
only used for text content of numeric children, which no claim inspects. -/
def jsNumToString (n : Rat) : String :=
  if n.den = 1 then toString n.num else toString n

/-- String conversion of a primitive value. -/
def JVal.asString : JVal → String
  | .str s => s
  | .num n => jsNumToString n
  | .bool b => if b then "true" else "false"
  | .jnull => "null"

/-- A JavaScript object whose values have type α, modelled as an
association list of key/value pairs.  A value of `none` models a key
that is present but set to undefined; a missing key is simply not in
the list. -/
abbrev ObjMap (α : Type) : Type := List (String × α)

/-- Reading a key: `some v` when the key is present with value v,
`none` when the key is missing.  The last occurrence wins, matching
the JavaScript semantics of repeated assignment. -/
def ObjMap.get {α : Type} : ObjMap α → String → Option α
  | [], _ => none
  | p :: rest, k =>
      match ObjMap.get rest k with
      | some v => some v
      | none => if p.1 == k then some p.2 else none

/-- Writing one key, as a JavaScript property assignment: replaces the
value in place when the key exists, appends otherwise. -/
def ObjMap.set {α : Type} (m : ObjMap α) (k : String) (v : α) : ObjMap α :=
  if m.any (fun p => p.1 == k) then
    m.map (fun p => if p.1 == k then (k, v) else p)
  else
    m ++ [(k, v)]

/-- Object spread `{...a, ...b}`: every key of b is assigned over a,
left to right. -/
def ObjMap.spread {α : Type} (a b : ObjMap α) : ObjMap α :=
  b.foldl (fun m p => m.set p.1 p.2) a

/-- `Object.fromEntries`: fold the pairs into a fresh object, so that a
later pair overwrites an earlier one with the same key. -/
def jsFromEntries {α : Type} (l : List (String × α)) : ObjMap α :=
  ObjMap.spread [] l

/-- A JavaScript style record: object whose values are primitive values
or undefined. -/
abbrev StyleObj : Type := ObjMap (Option JVal)

/-- Reading a key of a possibly spread-built object collapses "missing"
and "present but undefined" to undefined, like a JavaScript property
read.  Returns the defined value, if any. -/
def StyleObj.read (m : StyleObj) (k : String) : Option JVal :=
  match (ObjMap.get m k : Option (Option JVal)) with
  | some (some v) => some v
  | some none => none
  | none => none

/-- Nullish coalescing `x ?? d` on a property read (null and undefined
both fall back to the default). -/
def jsNullish (v : Option JVal) (d : JVal) : JVal :=
  match v with
  | some x => if x = .jnull then d else x
  | none => d

/-- A field of a JavaScript object literal built with spreads: the key
can be absent, present with value undefined, or present with a value. -/
inductive JOpt (α : Type) where
  | absent
  | undef
  | val (a : α)
deriving DecidableEq, Repr

/-- Spreading `upd` over a literal that already has the field set to
`base`: the update wins unless its key is absent. -/
def JOpt.overwrite {α : Type} (base upd : JOpt α) : JOpt α :=
  match upd with
  | .absent => base
  | .undef => .undef
  | .val a => .val a

/-- A key written in an object literal from an optional value: the key
is always present, with undefined when the option is empty. -/
def JOpt.ofOpt {α : Type} : Option α → JOpt α
  | none => .undef
  | some a => .val a

/-- Reading the field: absent and undefined read back as none. -/
def JOpt.read {α : Type} : JOpt α → Option α
  | .val a => some a
  | .undef => none
  | .absent => none

/-- The error conditions normalization can fail with; each carries the
data the thrown message names. -/
inductive NormError where
  | invalidPosition (value : String)
  | invalidTextChild
  | missingStyle (tag : String)
  | unknownObject
deriving DecidableEq, Repr

/-- Modelled from the spec: the external color-parsing collaborator
(§4.1 delegates parsing of color strings to the Color library, which is
not part of this repository).  `hex` is the composite `Color(s).hex()`
(a string with a leading hash) and `alphaOf` is `Color(s).alpha()`, a
fraction in [0,1].  Parse failures of the collaborator are outside the
embedded code paths and are not modelled. -/
structure ColorLib where
  hex : String → String
  alphaOf : String → Rat

/-- JavaScript `Math.round` on non-negative arguments:
round half away from zero, i.e. floor of x + 1/2. -/
def jsRound (x : Rat) : Int := Int.floor (x + (1 : Rat) / 2)

/-- A canonical color: bare hex string, or a solid record with a
transparency percentage.  The `solid` constructor carries the record
`{type: "solid", color, alpha}`. -/
inductive NColor where
  | hex (color : String)
  | solid (color : String) (alpha : Int)
deriving DecidableEq, Repr

/-- `normalizeHexColor` (normalizer.ts line 189): hex representation
without the leading hash, uppercased. -/
def normalizeHexColor (lib : ColorLib) (colorString : String) : String :=
  ((lib.hex colorString).drop 1).toUpper

/-- `normalizeHexOrComplexColor` (normalizer.ts line 193). -/
def normalizeHexOrComplexColor (lib : ColorLib) (colorString : String) : NColor :=
  let hexColor := ((lib.hex colorString).drop 1).toUpper
  if lib.alphaOf colorString = 1 then
    .hex hexColor
  else
    .solid hexColor (100 - jsRound (lib.alphaOf colorString * 100))

/-- The percent pattern of PERCENTAGE_REGEXP (normalizer.ts line 342):
one or more ASCII digits followed by a single percent sign, matching
the whole string. -/
def percentMatch (s : String) : Bool :=
  match s.data.reverse with
  | [] => false
  | c :: rest => c == '%' && !rest.isEmpty && rest.all Char.isDigit

/-- `normalizeCoordinate` (normalizer.ts line 344).  The input models
`string | number | null | undefined` as an optional primitive value;
the result is the string or number, or the default. -/
def normalizeCoordinate (x : Option JVal) (dflt : Rat) :
    Except NormError JVal :=
  match x with
  | some (.str s) =>
      if percentMatch s then .ok (.str s)
      else .error (.invalidPosition s)
  | some (.num n) => .ok (.num n)
  | some (.bool _) => .ok (.num dflt)
  | some .jnull => .ok (.num dflt)
  | none => .ok (.num dflt)

/-! ## Text children and text runs -/

/-- A TextChild input (nodes.ts is not under src/; the shape is the one
normalizer.ts consumes: strings, numbers, arrays, and the link/bullet
marker elements with their destructured props `children`, `style`,
`rtlMode`, `lang`, plus `url`/`slide`/`tooltip` for links and the
remaining bullet option props for bullets). -/
inductive TextChild where
  | str (s : String)
  | num (n : Rat)
  | arr (xs : List TextChild)
  | link (children : String) (style : Option StyleObj) (rtlMode : Option Bool)
      (lang : Option String) (url : Option String) (slide : Option Rat)
      (tooltip : Option String)
  | bullet (children : TextChild) (style : Option StyleObj) (rtlMode : Option Bool)
      (lang : Option String) (opts : List (String × Option JVal))
deriving Repr

/-- `React.isValidElement`: the marker nodes are the element values of
the model. -/
def TextChild.isElem : TextChild → Bool
  | .link _ _ _ _ _ _ _ => true
  | .bullet _ _ _ _ _ => true
  | .str _ => false
  | .num _ => false
  | .arr _ => false

/-- Modelled from the spec: `isReactElementOrElementArray` lives in
util.ts, which is not under src/.  Per §4.3/§6 it recognizes a single
element or an array of elements. -/
def isReactElementOrElementArray : TextChild → Bool
  | .arr xs => xs.all TextChild.isElem
  | .str _ => false
  | .num _ => false
  | .link _ _ _ _ _ _ _ => true
  | .bullet _ _ _ _ _ => true

mutual

/-- Modelled from the spec: `flattenChildren` lives in util.ts, which is
not under src/.  Per §6 it flattens a child value (single node, array,
nested arrays) into a flat ordered list of nodes. -/
def flattenChildren : TextChild → List TextChild
  | .arr xs => flattenList xs
  | .str s => [.str s]
  | .num n => [.num n]
  | .link a b c d e f g => [.link a b c d e f g]
  | .bullet a b c d e => [.bullet a b c d e]

/-- List part of `flattenChildren`. -/
def flattenList : List TextChild → List TextChild
  | [] => []
  | x :: xs => flattenChildren x ++ flattenList xs

end

mutual

/-- A weight on text children used as termination measure for the
recursive normalizer. -/
def tcWeight : TextChild → Nat
  | .arr xs => tcListWeight xs + 1
  | .bullet children _ _ _ _ => tcWeight children + 1
  | .str _ => 1
  | .num _ => 1
  | .link _ _ _ _ _ _ _ => 1

/-- List part of the weight. -/
def tcListWeight : List TextChild → Nat
  | [] => 0
  | x :: xs => tcWeight x + tcListWeight xs

end

theorem tcWeight_pos (t : TextChild) : 1 ≤ tcWeight t := by
  cases t <;> simp [tcWeight]

theorem tcListWeight_append (a b : List TextChild) :
    tcListWeight (a ++ b) = tcListWeight a + tcListWeight b := by
  induction a with
  | nil => simp [tcListWeight]
  | cons x xs ih => simp [tcListWeight, ih]; omega

theorem tcListWeight_flattenList_le (xs : List TextChild) :
    tcListWeight (flattenList xs) ≤ tcListWeight xs := by
  match xs with
  | [] => simp [flattenList]
  | .arr ys :: rest =>
      have h1 := tcListWeight_flattenList_le ys
      have h2 := tcListWeight_flattenList_le rest
      simp only [flattenList, flattenChildren, tcListWeight_append, tcListWeight, tcWeight,
        List.nil_append, List.cons_append, List.append_nil, List.append_eq]
      omega
  | .str s :: rest =>
      have h2 := tcListWeight_flattenList_le rest
      simp only [flattenList, flattenChildren, tcListWeight_append, tcListWeight,
        List.nil_append, List.cons_append, List.append_nil, List.append_eq]
      omega
  | .num n :: rest =>
      have h2 := tcListWeight_flattenList_le rest
      simp only [flattenList, flattenChildren, tcListWeight_append, tcListWeight,
        List.nil_append, List.cons_append, List.append_nil, List.append_eq]
      omega
  | .link a b c d e f g :: rest =>
      have h2 := tcListWeight_flattenList_le rest
      simp only [flattenList, flattenChildren, tcListWeight_append, tcListWeight,
        List.nil_append, List.cons_append, List.append_nil, List.append_eq]
      omega
  | .bullet a b c d e :: rest =>
      have h2 := tcListWeight_flattenList_le rest
      simp only [flattenList, flattenChildren, tcListWeight_append, tcListWeight,
        List.nil_append, List.cons_append, List.append_nil, List.append_eq]
      omega
termination_by tcListWeight xs
decreasing_by
  all_goals simp only [tcListWeight, tcWeight]
  all_goals omega

theorem flattenChildren_weight_le (t : TextChild) :
    tcListWeight (flattenChildren t) ≤ tcWeight t := by
  cases t <;>
    simp only [flattenChildren, tcListWeight, tcWeight] <;>
    first
      | omega
      | (have h := tcListWeight_flattenList_le (by assumption); omega)

/-- The flattening collaborator never leaves a nested array in its
output, so the array arm of the element reducer below is dead code. -/
theorem flattenList_no_arr (xs : List TextChild) (ys : List TextChild) :
    TextChild.arr ys ∉ flattenList xs := by
  match xs with
  | [] => simp [flattenList]
  | .arr zs :: rest =>
      have h1 := flattenList_no_arr zs ys
      have h2 := flattenList_no_arr rest ys
      simp only [flattenList, flattenChildren, List.mem_append]
      rintro (h | h)
      · exact h1 h
      · exact h2 h
  | .str s :: rest =>
      have h2 := flattenList_no_arr rest ys
      simp only [flattenList, flattenChildren, List.cons_append, List.nil_append,
        List.mem_cons]
      rintro (h | h)
      · cases h
      · exact h2 h
  | .num n :: rest =>
      have h2 := flattenList_no_arr rest ys
      simp only [flattenList, flattenChildren, List.cons_append, List.nil_append,
        List.mem_cons]
      rintro (h | h)
      · cases h
      · exact h2 h
  | .link a b c d e f g :: rest =>
      have h2 := flattenList_no_arr rest ys
      simp only [flattenList, flattenChildren, List.cons_append, List.nil_append,
        List.mem_cons]
      rintro (h | h)
      · cases h
      · exact h2 h
  | .bullet a b c d e :: rest =>
      have h2 := flattenList_no_arr rest ys
      simp only [flattenList, flattenChildren, List.cons_append, List.nil_append,
        List.mem_cons]
      rintro (h | h)
      · cases h
      · exact h2 h
termination_by tcListWeight xs
decreasing_by
  all_goals simp only [tcListWeight, tcWeight]
  all_goals omega

/-- The link field of a canonical run. -/
inductive LinkVal where
  | urlLink (url : String) (tooltip : Option String)
  | slideLink (slide : Rat) (tooltip : Option String)
deriving DecidableEq, Repr

/-- The bullet marker value: literal `true` when the marker has no
option props of its own, otherwise the record of remaining props. -/
inductive BulletVal where
  | btrue
  | bopts (opts : List (String × Option JVal))
deriving DecidableEq, Repr

/-- An InternalTextPart (normalizer.ts line 75), with the per-field
presence state tracked so that later object spreads behave exactly as
in JavaScript. -/
structure InternalTextPart where
  text : String
  style : StyleObj
  rtlMode : JOpt Bool := .absent
  lang : JOpt String := .absent
  link : JOpt LinkVal := .absent
  bullet : JOpt BulletVal := .absent
  breakLine : JOpt Bool := .absent
deriving DecidableEq, Repr

/-- The truthy value of `style?.color`, when present. -/
def styleColorValue (style : Option StyleObj) : Option JVal :=
  match style with
  | none => none
  | some st =>
      match st.read "color" with
      | some v => if v.truthy then some v else none
      | none => none

/-- `{...(style || {}), color: style?.color ? normalizeHexColor(style.color)
: undefined}`, the re-styling applied both to a link run's own style and
to the bullet marker's style before merging. -/
def withNormalizedColor (lib : ColorLib) (style : Option StyleObj) : StyleObj :=
  ObjMap.set (style.getD []) "color"
    ((styleColorValue style).map (fun v => JVal.str (normalizeHexColor lib v.asString)))

/-- `Array.prototype.map` with the element index, as used by the bullet
branch. -/
def mapIdxFrom {α β : Type} (f : Nat → α → β) : Nat → List α → List β
  | _, [] => []
  | i, x :: xs => f i x :: mapIdxFrom f (i + 1) xs

/-- Map with index starting at 0. -/
def jsMapIdx {α β : Type} (f : Nat → α → β) (l : List α) : List β :=
  mapIdxFrom f 0 l

/-- The object literal built for each nested run of a bullet marker
(normalizer.ts lines 247-257): marker fields first, then the spread of
the child part, then the merged style and the break flag. -/
def bulletChildPart (lib : ColorLib) (rtlMode : Option Bool) (lang : Option String)
    (bulletVal : BulletVal) (style : Option StyleObj) (n : Nat)
    (index : Nat) (childPart : InternalTextPart) : InternalTextPart :=
  { text := childPart.text
    rtlMode := JOpt.overwrite (JOpt.ofOpt rtlMode) childPart.rtlMode
    lang := JOpt.overwrite (JOpt.ofOpt lang) childPart.lang
    bullet := JOpt.overwrite (if index = 0 then .val bulletVal else .undef) childPart.bullet
    link := childPart.link
    style := ObjMap.spread (withNormalizedColor lib style) childPart.style
    breakLine := .val (decide (index + 1 ≥ n)) }

mutual

/-- `normalizeText` (normalizer.ts line 213): dispatch on the shape of
the child value. -/
def normalizeText (lib : ColorLib) (t : TextChild) :
    Except NormError (List InternalTextPart) :=
  if isReactElementOrElementArray t then
    normalizeFlat lib (flattenChildren t)
  else
    match t with
    | .arr xs => normalizeArr lib xs
    | .str s => .ok [{ text := s, style := [] }]
    | .num n => .ok [{ text := jsNumToString n, style := [] }]
    | .link _ _ _ _ _ _ _ => .error .invalidTextChild
    | .bullet _ _ _ _ _ => .error .invalidTextChild
termination_by 4 * tcWeight t + 2
decreasing_by
  · have h := flattenChildren_weight_le t
    omega
  · simp only [tcWeight]
    omega

/-- The reduce over the flattened element list (normalizer.ts lines
215-290): each element contributes its parts in order, concatenated. -/
def normalizeFlat (lib : ColorLib) (l : List TextChild) :
    Except NormError (List InternalTextPart) :=
  match l with
  | [] => .ok []
  | el :: rest => do
      let parts ← normalizeStep lib el
      let restParts ← normalizeFlat lib rest
      .ok (parts ++ restParts)
termination_by 4 * tcListWeight l + 1
decreasing_by
  · simp only [tcListWeight]
    omega
  · have h := tcWeight_pos x
    simp only [tcListWeight]
    omega

/-- The contribution of a single flattened element: the body of the
reducer of normalizeText. -/
def normalizeStep (lib : ColorLib) (el : TextChild) :
    Except NormError (List InternalTextPart) :=
  match el with
  | .bullet children style rtlMode lang opts => do
      let bulletVal : BulletVal := if opts.isEmpty then .btrue else .bopts opts
      let normalizedChildren ← normalizeText lib children
      .ok (jsMapIdx
        (bulletChildPart lib rtlMode lang bulletVal style normalizedChildren.length)
        normalizedChildren)
  | .link children style rtlMode lang url slide tooltip =>
      let link : JOpt LinkVal :=
        match url with
        | some u => .val (.urlLink u tooltip)
        | none =>
            match slide with
            | some s => if s != 0 then .val (.slideLink s tooltip) else .undef
            | none => .undef
      .ok [{ text := children
             rtlMode := JOpt.ofOpt rtlMode
             lang := JOpt.ofOpt lang
             link := link
             style := withNormalizedColor lib style }]
  | .str s => .ok [{ text := s, style := [] }]
  | .num n => .ok [{ text := jsNumToString n, style := [] }]
  | .arr _ => .ok [{ text := "", style := [] }]
    -- dead arm: flattenChildren never emits a nested array (flattenList_no_arr)
termination_by 4 * tcWeight el
decreasing_by
  simp only [tcWeight]
  omega

/-- The array branch of normalizeText (normalizer.ts lines 291-295):
elementwise normalization, concatenated in order. -/
def normalizeArr (lib : ColorLib) (l : List TextChild) :
    Except NormError (List InternalTextPart) :=
  match l with
  | [] => .ok []
  | x :: rest => do
      let parts ← normalizeText lib x
      let restParts ← normalizeArr lib rest
      .ok (parts ++ restParts)
termination_by 4 * tcListWeight l + 3
decreasing_by
  · simp only [tcListWeight]
    omega
  · have h := tcWeight_pos x
    simp only [tcListWeight]
    omega

end

/-! ## Visual nodes -/

/-- The truthy value of an optional property, when present.  The
pattern `v ? f(v) : null` in the source becomes a map over this. -/
def truthyVal (v : Option JVal) : Option JVal :=
  match v with
  | some x => if x.truthy then some x else none
  | none => none

/-- The pattern `c ? normalizeHexColor(c) : null` of the source, on an
optional color property. -/
def colorOrNull (lib : ColorLib) (v : Option JVal) : JVal :=
  match truthyVal v with
  | some x => .str (normalizeHexColor lib x.asString)
  | none => .jnull

/-- DEFAULT_FONT_SIZE (normalizer.ts line 44). -/
def DEFAULT_FONT_SIZE : Rat := 18

/-- DEFAULT_FONT_FACE (normalizer.ts line 45). -/
def DEFAULT_FONT_FACE : String := "Arial"

/-- A canonical image source. -/
inductive InternalImageSrc where
  | data (d : String)
  | path (p : String)
deriving DecidableEq, Repr

/-- The image `src` prop: a bare string or an already structured
source record. -/
inductive ImageSrcIn where
  | srcStr (s : String)
  | srcRec (r : InternalImageSrc)
deriving DecidableEq, Repr

/-- `normalizeImageSrc` (normalizer.ts line 310). -/
def normalizeImageSrc : ImageSrcIn → InternalImageSrc
  | .srcStr s => .path s
  | .srcRec r => r

/-- An image sizing policy record. -/
structure SizingIn where
  fit : String
  imageWidth : Option Rat := none
  imageHeight : Option Rat := none
deriving DecidableEq, Repr

/-- Input style of an image node (nodes.ts is not under src/; fields
are the ones normalizer.ts reads). -/
structure ImageStyleIn where
  x : Option JVal := none
  y : Option JVal := none
  w : Option JVal := none
  h : Option JVal := none
  sizing : Option SizingIn := none
deriving DecidableEq, Repr

/-- Input style of a shape node. -/
structure ShapeStyleIn where
  x : Option JVal := none
  y : Option JVal := none
  w : Option JVal := none
  h : Option JVal := none
  backgroundColor : Option JVal := none
  borderColor : Option JVal := none
  borderWidth : Option JVal := none
deriving DecidableEq, Repr

/-- Input style of a table node. -/
structure TableStyleIn where
  x : Option JVal := none
  y : Option JVal := none
  w : Option JVal := none
  h : Option JVal := none
  borderColor : Option JVal := none
  borderWidth : Option JVal := none
  margin : Option JVal := none
deriving DecidableEq, Repr

/-- Input style of a line node. -/
structure LineStyleIn where
  color : Option JVal := none
  width : Option JVal := none
deriving DecidableEq, Repr

mutual

/-- A visual input node, tagged as in the closed NodeTypes enumeration
(§6); text-bearing nodes carry an open style record because the source
spreads it whole into the output, the others carry the fields the
source reads.  The `unknown` constructor stands for an element whose
tag is none of the recognized ones. -/
inductive VisualNode where
  | text (style : Option StyleObj) (children : Option TextChild)
  | tableCell (style : Option StyleObj) (children : Option TextChild)
      (colSpan : Option Rat) (rowSpan : Option Rat)
  | image (style : Option ImageStyleIn) (src : ImageSrcIn)
  | shape (style : Option ShapeStyleIn) (shapeType : String) (children : Option TextChild)
  | table (style : Option TableStyleIn) (rows : List (List TableCell))
  | line (style : Option LineStyleIn) (x1 : Rat) (y1 : Rat) (x2 : Rat) (y2 : Rat)
  | unknown (style : Option StyleObj) (tag : String)

/-- A table cell input: a bare string or a nested node. -/
inductive TableCell where
  | strCell (s : String)
  | nodeCell (v : VisualNode)

end

/-- The `${node.type}` tag used in the missing-style message. -/
def nodeTag : VisualNode → String
  | .text _ _ => "text"
  | .tableCell _ _ _ _ => "table-cell"
  | .image _ _ => "image"
  | .shape _ _ _ => "shape"
  | .table _ _ => "table"
  | .line _ _ _ _ _ => "line"
  | .unknown _ tag => tag

/-- `!node.props.style`: a missing (or undefined) style record; a
present style object is always truthy. -/
def VisualNode.styleMissing : VisualNode → Bool
  | .text st _ => st.isNone
  | .tableCell st _ _ _ => st.isNone
  | .image st _ => st.isNone
  | .shape st _ _ => st.isNone
  | .table st _ => st.isNone
  | .line st _ _ _ _ => st.isNone
  | .unknown st _ => st.isNone

/-- The four normalized box coordinates. -/
structure Coords where
  x : JVal
  y : JVal
  w : JVal
  h : JVal
deriving DecidableEq, Repr

/-- The `normalizedCoordinates` object (normalizer.ts lines 384-390):
x and y default to 0, w and h default to 1; built in that order, so the
first offending value is the one reported. -/
def normalizeCoordinates (sx sy sw sh : Option JVal) : Except NormError Coords := do
  let x ← normalizeCoordinate sx 0
  let y ← normalizeCoordinate sy 0
  let w ← normalizeCoordinate sw 1
  let h ← normalizeCoordinate sh 1
  .ok { x := x, y := y, w := w, h := h }

/-- The coordinates as spreadable style keys. -/
def coordsStyle (c : Coords) : StyleObj :=
  [("x", some c.x), ("y", some c.y), ("w", some c.w), ("h", some c.h)]

/-- The output of normalizeTextType: run list plus the merged style. -/
structure InternalTextObj where
  text : List InternalTextPart
  style : StyleObj
deriving DecidableEq, Repr

/-- `normalizeTextType` (normalizer.ts line 322). -/
def normalizeTextType (lib : ColorLib) (style : StyleObj) (children : Option TextChild)
    (coords : Coords) : Except NormError InternalTextObj := do
  let text ← match children with
    | some c => normalizeText lib c
    | none => .ok []
  .ok { text := text
        style :=
          (((ObjMap.spread style (coordsStyle coords)).set "color"
              (some (colorOrNull lib (style.read "color")))).set "fontFace"
              (some (jsNullish (style.read "fontFace") (.str DEFAULT_FONT_FACE)))).set "fontSize"
              (some (jsNullish (style.read "fontSize") (.num DEFAULT_FONT_SIZE))) }

/-- Output style of an image node. -/
structure ImageStyleOut extends Coords where
  sizing : Option SizingIn
deriving DecidableEq, Repr

/-- Output style of a shape node. -/
structure ShapeStyleOut extends Coords where
  backgroundColor : Option NColor
  borderColor : Option String
  borderWidth : JVal
deriving DecidableEq, Repr

/-- Output style of a table node. -/
structure TableStyleOut extends Coords where
  borderColor : Option String
  borderWidth : JVal
  margin : JVal
deriving DecidableEq, Repr

/-- Output style of a line node. -/
structure LineStyleOut where
  color : JVal
  width : JVal
deriving DecidableEq, Repr

/-- A canonical slide object.  Table rows hold optional objects because
the source casts the recursive `InternalSlideObject | null` result into
a cell without checking for null. -/
inductive InternalSlideObject where
  | text (o : InternalTextObj)
  | tableCell (o : InternalTextObj) (colSpan : Option Rat) (rowSpan : Option Rat)
  | image (src : InternalImageSrc) (style : ImageStyleOut)
  | shape (shapeType : String) (text : Option (List InternalTextPart)) (style : ShapeStyleOut)
  | table (rows : List (List (Option InternalSlideObject))) (style : TableStyleOut)
  | line (x1 : Rat) (y1 : Rat) (x2 : Rat) (y2 : Rat) (style : LineStyleOut)
deriving Repr

mutual

/-- Weight of a visual node, the termination measure of the slide
object normalizer. -/
def vnWeight : VisualNode → Nat
  | .table _ rows => rowsWeight rows + 1
  | _ => 1

/-- Weight of the row list of a table. -/
def rowsWeight : List (List TableCell) → Nat
  | [] => 0
  | r :: rs => rowWeight r + rowsWeight rs + 1

/-- Weight of one row. -/
def rowWeight : List TableCell → Nat
  | [] => 0
  | c :: cs => cellWeight c + rowWeight cs + 1

/-- Weight of one cell. -/
def cellWeight : TableCell → Nat
  | .strCell _ => 1
  | .nodeCell v => vnWeight v + 1

end

mutual

/-- `normalizeSlideObject` (normalizer.ts line 361): the missing-style
check runs first for every node kind, then the kind dispatch.  The
`getD` defaults inside the branches are unreachable because the guard
already rejected a missing style. -/
def normalizeSlideObject (lib : ColorLib) (node : VisualNode) :
    Except NormError (Option InternalSlideObject) :=
  if node.styleMissing then .error (.missingStyle (nodeTag node))
  else
    match node with
    | .line st x1 y1 x2 y2 =>
        let s := st.getD {}
        .ok (some (.line x1 y1 x2 y2
          { color := colorOrNull lib s.color
            width := jsNullish s.width .jnull }))
    | .text st children => do
        let s := st.getD []
        let coords ← normalizeCoordinates (s.read "x") (s.read "y") (s.read "w") (s.read "h")
        let o ← normalizeTextType lib s children coords
        .ok (some (.text o))
    | .tableCell st children colSpan rowSpan => do
        let s := st.getD []
        let coords ← normalizeCoordinates (s.read "x") (s.read "y") (s.read "w") (s.read "h")
        let o ← normalizeTextType lib s children coords
        .ok (some (.tableCell o colSpan rowSpan))
    | .image st src => do
        let s := st.getD {}
        let coords ← normalizeCoordinates s.x s.y s.w s.h
        .ok (some (.image (normalizeImageSrc src)
          { toCoords := coords, sizing := s.sizing }))
    | .shape st shapeType children => do
        let s := st.getD {}
        let coords ← normalizeCoordinates s.x s.y s.w s.h
        let text ← match children with
          | some c => Except.map some (normalizeText lib c)
          | none => .ok none
        .ok (some (.shape shapeType text
          { toCoords := coords
            backgroundColor := (truthyVal s.backgroundColor).map
              (fun v => normalizeHexOrComplexColor lib v.asString)
            borderColor := (truthyVal s.borderColor).map
              (fun v => normalizeHexColor lib v.asString)
            borderWidth := jsNullish s.borderWidth .jnull }))
    | .table st rows => do
        let s := st.getD {}
        let coords ← normalizeCoordinates s.x s.y s.w s.h
        let nrows ← normalizeRows lib rows
        .ok (some (.table nrows
          { toCoords := coords
            borderColor := (truthyVal s.borderColor).map
              (fun v => normalizeHexColor lib v.asString)
            borderWidth := jsNullish s.borderWidth .jnull
            margin := jsNullish s.margin .jnull }))
    | .unknown _ _ => .error .unknownObject
termination_by 4 * vnWeight node + 2
decreasing_by
  simp only [vnWeight]
  omega

/-- The `rows.map` of the table branch (normalizer.ts line 433). -/
def normalizeRows (lib : ColorLib) (rs : List (List TableCell)) :
    Except NormError (List (List (Option InternalSlideObject))) :=
  match rs with
  | [] => .ok []
  | r :: rest => do
      let nr ← normalizeRow lib r
      let nrest ← normalizeRows lib rest
      .ok (nr :: nrest)
termination_by 4 * rowsWeight rs + 1
decreasing_by
  · simp only [rowsWeight]
    omega
  · simp only [rowsWeight]
    omega

/-- The `row.map` inside the table branch (normalizer.ts line 434). -/
def normalizeRow (lib : ColorLib) (r : List TableCell) :
    Except NormError (List (Option InternalSlideObject)) :=
  match r with
  | [] => .ok []
  | c :: rest => do
      let nc ← normalizeCell lib c
      let nrest ← normalizeRow lib rest
      .ok (nc :: nrest)
termination_by 4 * rowWeight r
decreasing_by
  · simp only [rowWeight]
    omega
  · simp only [rowWeight]
    omega

/-- One table cell (normalizer.ts lines 434-444): a bare string becomes
the minimal text cell, anything else is normalized recursively and
stored as returned (the source casts away the null possibility). -/
def normalizeCell (lib : ColorLib) (c : TableCell) :
    Except NormError (Option InternalSlideObject) :=
  match c with
  | .strCell s =>
      .ok (some (.text
        { text := [{ text := s, style := [] }]
          style := [("x", some (.num 0)), ("y", some (.num 0)), ("w", some (.num 0)),
            ("h", some (.num 0)), ("color", some .jnull)] }))
  | .nodeCell v => normalizeSlideObject lib v
termination_by 4 * cellWeight c
decreasing_by
  simp only [cellWeight, vnWeight]
  omega

end

/-! ## Slides, master slides and the presentation -/

/-- The style record of a slide or master slide. -/
structure SlideStyleIn where
  backgroundColor : Option JVal := none
  backgroundImage : Option InternalImageSrc := none
deriving DecidableEq, Repr

/-- Props of a slide node. -/
structure SlideProps where
  masterName : Option String := none
  hidden : Option Bool := none
  style : Option SlideStyleIn := none
  notes : Option String := none
  children : Option (List VisualNode) := none

/-- Props of a master slide node. -/
structure MasterSlideProps where
  name : String
  style : Option SlideStyleIn := none
  children : Option (List VisualNode) := none

/-- An InternalSlide (normalizer.ts line 156). -/
structure InternalSlide where
  masterName : Option String
  objects : List InternalSlideObject
  backgroundColor : Option NColor
  backgroundImage : Option InternalImageSrc
  hidden : Bool
  notes : Option String
deriving Repr

/-- An InternalMasterSlide (normalizer.ts line 165). -/
structure InternalMasterSlide where
  name : String
  objects : List InternalSlideObject
  backgroundColor : Option NColor
  backgroundImage : Option InternalImageSrc
deriving Repr

/-- The `.map(normalizeSlideObject)` over the flattened children of a
slide, before the null filter. -/
def mapObjects (lib : ColorLib) : List VisualNode →
    Except NormError (List (Option InternalSlideObject))
  | [] => .ok []
  | v :: vs => do
      let o ← normalizeSlideObject lib v
      let rest ← mapObjects lib vs
      .ok (o :: rest)

/-- `isPresent` (normalizer.ts line 463) applied as the null filter. -/
def filterPresent (l : List (Option InternalSlideObject)) : List InternalSlideObject :=
  l.filterMap id

/-- `normalizeSlide` (normalizer.ts line 466).  The child-flattening
collaborator is modelled by taking the children as an already flat
list. -/
def normalizeSlide (lib : ColorLib) (props : SlideProps) :
    Except NormError InternalSlide := do
  let objects ← match props.children with
    | some cs => Except.map filterPresent (mapObjects lib cs)
    | none => .ok []
  .ok { masterName := props.masterName
        hidden := props.hidden.getD false
        backgroundColor := (truthyVal (props.style.bind (fun s => s.backgroundColor))).map
          (fun v => normalizeHexOrComplexColor lib v.asString)
        backgroundImage := props.style.bind (fun s => s.backgroundImage)
        notes := props.notes
        objects := objects }

/-- `normalizeMasterSlide` (normalizer.ts line 486). -/
def normalizeMasterSlide (lib : ColorLib) (props : MasterSlideProps) :
    Except NormError InternalMasterSlide := do
  let objects ← match props.children with
    | some cs => Except.map filterPresent (mapObjects lib cs)
    | none => .ok []
  .ok { name := props.name
        backgroundColor := (truthyVal (props.style.bind (fun s => s.backgroundColor))).map
          (fun v => normalizeHexOrComplexColor lib v.asString)
        backgroundImage := props.style.bind (fun s => s.backgroundImage)
        objects := objects }

/-- A top-level child of the presentation: a slide element, a master
slide element, or an element of any other type tag. -/
inductive PresNode where
  | slideN (props : SlideProps)
  | masterN (props : MasterSlideProps)
  | otherN (tag : String)

/-- Props of the presentation root. -/
structure PresentationProps where
  layout : Option String := none
  children : Option (List PresNode) := none
  author : Option String := none
  company : Option String := none
  revision : Option String := none
  subject : Option String := none
  title : Option String := none

/-- An InternalPresentation (normalizer.ts line 172). -/
structure InternalPresentation where
  slides : List InternalSlide
  masterSlides : ObjMap InternalMasterSlide
  layout : String
  author : Option String
  company : Option String
  revision : Option String
  subject : Option String
  title : Option String

/-- The `children.filter(type === NodeTypes.SLIDE)` subset, with the
props extracted. -/
def slideNodes (cs : List PresNode) : List SlideProps :=
  cs.filterMap (fun n => match n with | .slideN p => some p | _ => none)

/-- The `children.filter(type === NodeTypes.MASTER_SLIDE)` subset, with
the props extracted. -/
def masterNodes (cs : List PresNode) : List MasterSlideProps :=
  cs.filterMap (fun n => match n with | .masterN p => some p | _ => none)

/-- The `.map(normalizeSlide)` over the slide subset. -/
def mapSlides (lib : ColorLib) : List SlideProps → Except NormError (List InternalSlide)
  | [] => .ok []
  | p :: rest => do
      let s ← normalizeSlide lib p
      let r ← mapSlides lib rest
      .ok (s :: r)

/-- The `.map(normalizeMasterSlide)` over the master subset. -/
def mapMasters (lib : ColorLib) : List MasterSlideProps →
    Except NormError (List InternalMasterSlide)
  | [] => .ok []
  | p :: rest => do
      let s ← normalizeMasterSlide lib p
      let r ← mapMasters lib rest
      .ok (s :: r)

/-- `normalizeJsx` (normalizer.ts line 505): slides are normalized in
order; master slides are folded name-keyed through Object.fromEntries,
so a later duplicate name overwrites an earlier one. -/
def normalizeJsx (lib : ColorLib) (props : PresentationProps) :
    Except NormError InternalPresentation :=
  match props.children with
  | none =>
      .ok { slides := [], masterSlides := [], layout := props.layout.getD "16x9"
            author := props.author, company := props.company, revision := props.revision
            subject := props.subject, title := props.title }
  | some children => do
      let slides ← mapSlides lib (slideNodes children)
      let masters ← mapMasters lib (masterNodes children)
      .ok { slides := slides
            masterSlides := jsFromEntries (masters.map (fun m => (m.name, m)))
            layout := props.layout.getD "16x9"
            author := props.author, company := props.company, revision := props.revision
            subject := props.subject, title := props.title }

/-! ## Concrete instances used by witnesses and counterexamples -/

def sampleColorLib : ColorLib := { hex := fun s => s, alphaOf := fun _ => 1 }

def sampleRuns : List InternalTextPart :=
  [{ text := "a", style := [] }, { text := "b", style := [] }]

def blackQuarterLib : ColorLib := { hex := fun _ => "#000000", alphaOf := fun _ => 1/4 }

def blackTinyLib : ColorLib := { hex := fun _ => "#000000", alphaOf := fun _ => 1/200 }

def sampleTableRows : List (List TableCell) :=
  [[.strCell "a", .strCell "b"], [.strCell "c"]]

def sampleCellOut (s : String) : Option InternalSlideObject :=
  some (.text
    { text := [{ text := s, style := [] }]
      style := [("x", some (.num 0)), ("y", some (.num 0)), ("w", some (.num 0)),
        ("h", some (.num 0)), ("color", some .jnull)] })

def sampleNRows : List (List (Option InternalSlideObject)) :=
  [[sampleCellOut "a", sampleCellOut "b"], [sampleCellOut "c"]]

def sampleTableStyleOut : TableStyleOut :=
  { x := .num 0, y := .num 0, w := .num 1, h := .num 1, borderColor := none,
    borderWidth := .jnull, margin := .jnull }

def masterA : MasterSlideProps := { name := "m" }

def masterB : MasterSlideProps :=
  { name := "m", children := some [.line (some {}) 1 2 3 4] }

def c6children : List PresNode :=
  [.masterN masterA, .masterN masterB, .slideN {}, .otherN "x"]

def c6props : PresentationProps := { children := some c6children }

def c6nm2 : InternalMasterSlide :=
  { name := "m"
    objects := [.line 1 2 3 4 { color := .jnull, width := .jnull }]
    backgroundColor := none
    backgroundImage := none }

def c6slide1 : InternalSlide :=
  { masterName := none, objects := [], backgroundColor := none,
    backgroundImage := none, hidden := false, notes := none }

def c6pres : InternalPresentation :=
  { slides := [c6slide1]
    masterSlides := [("m", c6nm2)]
    layout := "16x9"
    author := none, company := none, revision := none, subject := none, title := none }

/-! ## Lemmas about the object model -/

theorem exceptBind_ok {ε α β : Type} (a : Except ε α) (f : α → Except ε β) (b : β) :
    (a >>= f) = .ok b ↔ ∃ v, a = .ok v ∧ f v = .ok b := by
  cases a <;> simp [Bind.bind, Except.bind]

theorem exceptMap_ok {ε α β : Type} (g : α → β) (a : Except ε α) (b : β) :
    Except.map g a = .ok b ↔ ∃ v, a = .ok v ∧ g v = b := by
  cases a <;> simp [Except.map, eq_comm]

theorem objMapGet_eq_none_of_not_any {α : Type} (m : ObjMap α) (k : String)
    (h : m.any (fun p => p.1 == k) = false) : ObjMap.get m k = none := by
  induction m with
  | nil => rfl
  | cons p rest ih =>
      simp only [List.any_cons, Bool.or_eq_false_iff] at h
      simp only [ObjMap.get, ih h.2, h.1, Bool.false_eq_true, if_false]

theorem objMapGet_append {α : Type} (a b : ObjMap α) (k : String) :
    ObjMap.get (a ++ b) k =
      match ObjMap.get b k with
      | some v => some v
      | none => ObjMap.get a k := by
  induction a with
  | nil =>
      simp only [List.nil_append]
      cases h : ObjMap.get b k <;> simp [h, ObjMap.get]
  | cons p rest ih =>
      simp only [List.cons_append, ObjMap.get, List.append_eq]
      rw [ih]
      cases h : ObjMap.get b k <;> cases h2 : ObjMap.get rest k <;> simp [h, h2]

theorem objMapAny_map_setFun {α : Type} (m : ObjMap α) (k k2 : String) (v : α) :
    (m.map (fun p => if p.1 == k then (k, v) else p)).any (fun p => p.1 == k2) =
      m.any (fun p => p.1 == k2) := by
  induction m with
  | nil => rfl
  | cons p rest ih =>
      simp only [List.map_cons, List.any_cons, ih]
      by_cases h : p.1 == k
      · have : p.1 = k := by exact eq_of_beq h
        simp [h, this]
      · simp [h]

theorem objMapGet_map_set_of_any {α : Type} (m : ObjMap α) (k : String) (v : α)
    (h : m.any (fun p => p.1 == k) = true) :
    ObjMap.get (m.map (fun p => if p.1 == k then (k, v) else p)) k = some v := by
  induction m with
  | nil => cases h
  | cons p rest ih =>
      simp only [List.any_cons, Bool.or_eq_true] at h
      by_cases hr : rest.any (fun p => p.1 == k) = true
      · simp only [List.map_cons, ObjMap.get, ih hr]
      · have hb : (rest.map (fun p => if p.1 == k then (k, v) else p)).any
            (fun p => p.1 == k) = false := by
          rw [objMapAny_map_setFun]
          exact Bool.eq_false_iff.mpr hr
        have hn := objMapGet_eq_none_of_not_any _ _ hb
        have hp : (p.1 == k) = true := by
          rcases h with h | h
          · exact h
          · exact absurd h hr
        simp only [List.map_cons, ObjMap.get, hn, hp, if_true, beq_self_eq_true]

theorem objMapGet_map_set_other {α : Type} (m : ObjMap α) (k k2 : String) (v : α)
    (h : (k == k2) = false) :
    ObjMap.get (m.map (fun p => if p.1 == k then (k, v) else p)) k2 = ObjMap.get m k2 := by
  induction m with
  | nil => rfl
  | cons p rest ih =>
      simp only [List.map_cons, ObjMap.get, ih]
      cases h2 : ObjMap.get rest k2
      · by_cases hp : p.1 == k
        · have : p.1 = k := eq_of_beq hp
          simp [hp, this, h]
        · simp [hp]
      · simp

theorem objMapGet_set_same {α : Type} (m : ObjMap α) (k : String) (v : α) :
    ObjMap.get (m.set k v) k = some v := by
  unfold ObjMap.set
  by_cases h : m.any (fun p => p.1 == k) = true
  · simp only [h, if_true]
    exact objMapGet_map_set_of_any m k v h
  · simp only [h, Bool.false_eq_true, if_false]
    rw [objMapGet_append]
    simp [ObjMap.get]

theorem objMapGet_set_other {α : Type} (m : ObjMap α) (k k2 : String) (v : α)
    (h : k2 ≠ k) :
    ObjMap.get (m.set k v) k2 = ObjMap.get m k2 := by
  have hbeq : (k == k2) = false := by
    simp only [beq_eq_false_iff_ne, ne_eq]
    exact fun he => h he.symm
  unfold ObjMap.set
  by_cases ha : m.any (fun p => p.1 == k) = true
  · simp only [ha, if_true]
    exact objMapGet_map_set_other m k k2 v hbeq
  · simp only [ha, Bool.false_eq_true, if_false]
    rw [objMapGet_append]
    simp [ObjMap.get, hbeq]

theorem objMapSpread_cons {α : Type} (a : ObjMap α) (p : String × α) (rest : ObjMap α) :
    ObjMap.spread a (p :: rest) = ObjMap.spread (a.set p.1 p.2) rest := rfl

theorem objMapGet_spread {α : Type} (a b : ObjMap α) (k : String) :
    ObjMap.get (ObjMap.spread a b) k =
      match ObjMap.get b k with
      | some v => some v
      | none => ObjMap.get a k := by
  induction b generalizing a with
  | nil => rfl
  | cons p rest ih =>
      rw [objMapSpread_cons, ih]
      simp only [ObjMap.get]
      cases h : ObjMap.get rest k
      · by_cases hp : p.1 == k
        · have he : p.1 = k := eq_of_beq hp
          subst he
          simp [objMapGet_set_same]
        · have hne : k ≠ p.1 := by
            intro he
            subst he
            simp at hp
          simp [hp, objMapGet_set_other a p.1 k p.2 hne]
      · simp

theorem objMapGet_spread_some {α : Type} (a b : ObjMap α) (k : String) (v : α)
    (h : ObjMap.get b k = some v) :
    ObjMap.get (ObjMap.spread a b) k = some v := by
  rw [objMapGet_spread, h]

theorem objMapGet_spread_none {α : Type} (a b : ObjMap α) (k : String)
    (h : ObjMap.get b k = none) :
    ObjMap.get (ObjMap.spread a b) k = ObjMap.get a k := by
  rw [objMapGet_spread, h]

theorem jsFromEntries_get {α : Type} (l : List (String × α)) (k : String) :
    ObjMap.get (jsFromEntries l) k = ObjMap.get l k := by
  unfold jsFromEntries
  rw [objMapGet_spread]
  cases h : ObjMap.get l k <;> simp [ObjMap.get]

theorem objMapKeys_map_setFun {α : Type} (m : ObjMap α) (k : String) (v : α) :
    (m.map (fun p => if p.1 == k then (k, v) else p)).map (fun p => p.1) =
      m.map (fun p => p.1) := by
  induction m with
  | nil => rfl
  | cons p rest ih =>
      simp only [List.map_cons, List.cons.injEq]
      refine ⟨?_, ih⟩
      by_cases hp : (p.1 == k) = true
      · have := eq_of_beq hp
        simp [hp, this]
      · simp [hp]

theorem objMapKeys_set {α : Type} (m : ObjMap α) (k : String) (v : α)
    (h : (m.map (fun p => p.1)).Nodup) :
    ((m.set k v).map (fun p => p.1)).Nodup := by
  unfold ObjMap.set
  by_cases ha : m.any (fun p => p.1 == k) = true
  · simp only [ha, if_true]
    rw [objMapKeys_map_setFun]
    exact h
  · simp only [ha, Bool.false_eq_true, if_false, List.map_append, List.map_cons,
      List.map_nil]
    refine List.nodup_append.mpr ⟨h, List.nodup_singleton k, ?_⟩
    intro a hmem hk
    simp only [List.mem_singleton] at hk
    rcases List.mem_map.mp hmem with ⟨p, hp, hpk⟩
    have hany : m.any (fun q => q.1 == k) = true :=
      List.any_eq_true.mpr ⟨p, hp, by simp [hpk, hk]⟩
    exact ha hany

theorem jsFromEntries_keys_nodup {α : Type} (l : List (String × α)) :
    ((jsFromEntries l).map (fun p => p.1)).Nodup := by
  unfold jsFromEntries
  suffices h : ∀ acc : ObjMap α, (acc.map (fun p => p.1)).Nodup →
      ((ObjMap.spread acc l).map (fun p => p.1)).Nodup by
    exact h [] (by simp)
  induction l with
  | nil => intro acc hacc; exact hacc
  | cons p rest ih =>
      intro acc hacc
      rw [objMapSpread_cons]
      exact ih _ (objMapKeys_set acc p.1 p.2 hacc)

theorem objMapCountP_of_not_mem {α : Type} (m : ObjMap α) (k : String)
    (h : k ∉ m.map (fun p => p.1)) :
    m.countP (fun p => p.1 == k) = 0 := by
  rw [List.countP_eq_zero]
  intro p hp hbeq
  exact h (List.mem_map.mpr ⟨p, hp, eq_of_beq hbeq⟩)

theorem objMapGet_of_not_mem {α : Type} (m : ObjMap α) (k : String)
    (h : k ∉ m.map (fun p => p.1)) :
    ObjMap.get m k = none := by
  apply objMapGet_eq_none_of_not_any
  rw [List.any_eq_false]
  intro p hp
  simp only [Bool.not_eq_true, beq_eq_false_iff_ne, ne_eq]
  intro he
  exact h (List.mem_map.mpr ⟨p, hp, he⟩)

theorem objMapCountP_key_of_nodup {α : Type} (m : ObjMap α) (k : String)
    (h : (m.map (fun p => p.1)).Nodup) :
    m.countP (fun p => p.1 == k) = if (ObjMap.get m k).isSome then 1 else 0 := by
  induction m with
  | nil => rfl
  | cons p rest ih =>
      simp only [List.map_cons, List.nodup_cons] at h
      rw [List.countP_cons, ih h.2]
      by_cases hp : (p.1 == k) = true
      · have he : p.1 = k := eq_of_beq hp
        subst he
        have hnone : ObjMap.get rest p.1 = none := objMapGet_of_not_mem rest p.1 h.1
        have hcons : ObjMap.get (p :: rest) p.1 = some p.2 := by
          simp [ObjMap.get, hnone]
        rw [hcons, hnone]
        simp
      · have hcons : ObjMap.get (p :: rest) k = ObjMap.get rest k := by
          simp only [ObjMap.get]
          cases hr : ObjMap.get rest k
          · simp [hp]
          · rfl
        rw [hcons]
        simp [hp]

theorem mapIdxFrom_length {α β : Type} (f : Nat → α → β) (j : Nat) (l : List α) :
    (mapIdxFrom f j l).length = l.length := by
  induction l generalizing j with
  | nil => rfl
  | cons x xs ih => simp [mapIdxFrom, ih]

theorem mapIdxFrom_getElem? {α β : Type} (f : Nat → α → β) (j : Nat) (l : List α)
    (i : Nat) :
    (mapIdxFrom f j l)[i]? = (l[i]?).map (f (j + i)) := by
  induction l generalizing j i with
  | nil => simp [mapIdxFrom]
  | cons x xs ih =>
      cases i with
      | zero => simp [mapIdxFrom]
      | succ n =>
          simp only [mapIdxFrom, List.getElem?_cons_succ, ih (j + 1) n]
          have : j + 1 + n = j + (n + 1) := by omega
          rw [this]

theorem jsMapIdx_length {α β : Type} (f : Nat → α → β) (l : List α) :
    (jsMapIdx f l).length = l.length := mapIdxFrom_length f 0 l

theorem jsMapIdx_getElem? {α β : Type} (f : Nat → α → β) (l : List α) (i : Nat) :
    (jsMapIdx f l)[i]? = (l[i]?).map (f i) := by
  unfold jsMapIdx
  rw [mapIdxFrom_getElem?]
  simp


/-! ## Normalization lemmas for bullet markers and arrays -/

theorem normalizeStep_bullet (lib : ColorLib) (children : TextChild) (style : Option StyleObj)
    (rtlMode : Option Bool) (lang : Option String) (opts : List (String × Option JVal))
    (runs : List InternalTextPart) (h : normalizeText lib children = .ok runs) :
    normalizeStep lib (.bullet children style rtlMode lang opts) =
      .ok (jsMapIdx (bulletChildPart lib rtlMode lang
        (if opts.isEmpty then .btrue else .bopts opts) style runs.length) runs) := by
  simp only [normalizeStep, h, Bind.bind, Except.bind]

theorem normalizeText_bullet (lib : ColorLib) (children : TextChild) (style : Option StyleObj)
    (rtlMode : Option Bool) (lang : Option String) (opts : List (String × Option JVal))
    (runs : List InternalTextPart) (h : normalizeText lib children = .ok runs) :
    normalizeText lib (.bullet children style rtlMode lang opts) =
      .ok (jsMapIdx (bulletChildPart lib rtlMode lang
        (if opts.isEmpty then .btrue else .bopts opts) style runs.length) runs) := by
  rw [normalizeText]
  simp only [isReactElementOrElementArray, if_true, flattenChildren]
  rw [normalizeFlat, normalizeStep_bullet lib children style rtlMode lang opts runs h]
  rw [normalizeFlat]
  simp [Bind.bind, Except.bind]


theorem joptOverwrite_ne_absent {α : Type} (base upd : JOpt α) (h : upd ≠ .absent) :
    JOpt.overwrite base upd = upd := by
  cases upd with
  | absent => exact absurd rfl h
  | undef => rfl
  | val a => rfl

theorem normalizeText_bullet_parts (lib : ColorLib) (children : TextChild)
    (style : Option StyleObj) (rtlMode : Option Bool) (lang : Option String)
    (opts : List (String × Option JVal)) (runs : List InternalTextPart)
    (h : normalizeText lib children = .ok runs) :
    ∃ parts, normalizeText lib (.bullet children style rtlMode lang opts) = .ok parts ∧
      parts.length = runs.length ∧
      ∀ i : Nat, parts[i]? = (runs[i]?).map
        (bulletChildPart lib rtlMode lang (if opts.isEmpty then .btrue else .bopts opts)
          style runs.length i) :=
  ⟨_, normalizeText_bullet lib children style rtlMode lang opts runs h,
    jsMapIdx_length _ _, fun i => jsMapIdx_getElem? _ runs i⟩

/-- C1 (corrected): for a bullet marker whose nested TextChild normalizes
to N runs with N at least 1, normalizeText sets breakLine = false on every
run except the last and breakLine = true on the last; and, provided no
nested run already carries a bullet field of its own (as runs produced by a
nested bullet marker do), the bullet marker value is attached to exactly
one run, the first.  The unconditional marker attachment stated by the
original claim fails on nested bullets (see c1_counterexample). -/
theorem c1_bullet_breaklines_and_marker (lib : ColorLib) (children : TextChild)
    (style : Option StyleObj) (rtlMode : Option Bool) (lang : Option String)
    (opts : List (String × Option JVal)) (runs : List InternalTextPart)
    (h : normalizeText lib children = .ok runs) (hN : 1 ≤ runs.length) :
    ∃ parts, normalizeText lib (.bullet children style rtlMode lang opts) = .ok parts ∧
      parts.length = runs.length ∧
      (∀ (i : Nat) (p : InternalTextPart), parts[i]? = some p → p.breakLine = .val (decide (i + 1 ≥ runs.length))) ∧
      ((∀ r ∈ runs, r.bullet = .absent) →
        (∃ p, parts[0]? = some p ∧
          p.bullet = .val (if opts.isEmpty then .btrue else .bopts opts)) ∧
        (∀ (i : Nat) (p : InternalTextPart), parts[i]? = some p → i ≠ 0 → p.bullet = .undef)) := by
  rcases normalizeText_bullet_parts lib children style rtlMode lang opts runs h with
    ⟨parts, hok, hlen, hidx⟩
  refine ⟨parts, hok, hlen, ?_, ?_⟩
  · intro i p hp
    rw [hidx i] at hp
    rcases Option.map_eq_some'.mp hp with ⟨r, hr, hval⟩
    rw [← hval]
    rfl
  · intro hb
    constructor
    · obtain ⟨r0, h0⟩ : ∃ r, runs[0]? = some r := by
        cases hr : runs[0]? with
        | none =>
            rw [List.getElem?_eq_none_iff] at hr
            omega
        | some r => exact ⟨r, rfl⟩
      have hmem : r0 ∈ runs := List.getElem?_mem h0
      have habs := hb _ hmem
      refine ⟨bulletChildPart lib rtlMode lang
        (if opts.isEmpty then .btrue else .bopts opts) style runs.length 0 r0, ?_, ?_⟩
      · rw [hidx 0, h0]
        rfl
      · simp [bulletChildPart, habs, JOpt.overwrite]
    · intro i p hp hi
      rw [hidx i] at hp
      rcases Option.map_eq_some'.mp hp with ⟨r, hr, hval⟩
      have hmem : r ∈ runs := List.getElem?_mem hr
      have habs := hb _ hmem
      rw [← hval]
      simp [bulletChildPart, habs, JOpt.overwrite, hi]

/-- C1 counterexample: a bullet marker with its own option props wrapping
a nested bullet marker produces one run whose bullet field keeps the inner
marker value (literal true) instead of the outer marker value, so the
outer marker value is attached to no run at all. -/
theorem c1_counterexample :
    normalizeText sampleColorLib
        (.bullet (.bullet (.str "a") none none none []) none none none
          [("code", some (.str "x"))]) =
      .ok [{ text := "a", style := [("color", none)], rtlMode := .undef, lang := .undef,
             link := .absent, bullet := .val .btrue, breakLine := .val true }] ∧
    JOpt.val BulletVal.btrue ≠
      JOpt.val (BulletVal.bopts [("code", some (.str "x"))]) := by
  constructor
  · simp [normalizeText, normalizeFlat, normalizeStep, normalizeArr, isReactElementOrElementArray,
      TextChild.isElem, flattenChildren, flattenList, bulletChildPart, jsMapIdx, mapIdxFrom,
      withNormalizedColor, styleColorValue, ObjMap.set, ObjMap.spread, ObjMap.get, StyleObj.read,
      JOpt.overwrite, JOpt.ofOpt, Bind.bind, Except.bind, sampleColorLib, normalizeHexColor,
      JVal.truthy]
  · decide

/-- C1 witness: the amended theorem applied to a bullet wrapping the
two plain runs "a" and "b". -/
theorem c1_witness :
    (normalizeText sampleColorLib (.arr [.str "a", .str "b"]) = .ok sampleRuns) ∧
    (1 ≤ sampleRuns.length) ∧
    (∃ parts, normalizeText sampleColorLib
          (.bullet (.arr [.str "a", .str "b"]) none none none []) = .ok parts ∧
        parts.length = sampleRuns.length ∧
        (∀ (i : Nat) (p : InternalTextPart), parts[i]? = some p →
          p.breakLine = .val (decide (i + 1 ≥ sampleRuns.length))) ∧
        ((∀ r ∈ sampleRuns, r.bullet = .absent) →
          (∃ p, parts[0]? = some p ∧
            p.bullet = .val (if ([] : List (String × Option JVal)).isEmpty then .btrue
              else .bopts [])) ∧
          (∀ (i : Nat) (p : InternalTextPart), parts[i]? = some p → i ≠ 0 → p.bullet = .undef))) :=
  ⟨by simp [normalizeText, normalizeFlat, normalizeStep, normalizeArr,
      isReactElementOrElementArray, TextChild.isElem, flattenChildren, flattenList,
      Bind.bind, Except.bind, sampleRuns],
   by decide,
   c1_bullet_breaklines_and_marker sampleColorLib (.arr [.str "a", .str "b"]) none none none []
     sampleRuns
     (by simp [normalizeText, normalizeFlat, normalizeStep, normalizeArr,
        isReactElementOrElementArray, TextChild.isElem, flattenChildren, flattenList,
        Bind.bind, Except.bind, sampleRuns])
     (by decide)⟩


/-- C2 (confirmed): when normalizeText flattens a bullet marker, the
marker style (with its color canonicalized, withNormalizedColor) is
shallow-merged underneath each nested run's own style: for every style key
that the run's own style defines (has as its own key), the run's value
wins, and for every key the run's style does not define, the marker's
value fills the gap. -/
theorem c2_bullet_style_fallback (lib : ColorLib) (children : TextChild)
    (style : Option StyleObj) (rtlMode : Option Bool) (lang : Option String)
    (opts : List (String × Option JVal)) (runs : List InternalTextPart)
    (h : normalizeText lib children = .ok runs) :
    ∃ parts, normalizeText lib (.bullet children style rtlMode lang opts) = .ok parts ∧
      parts.length = runs.length ∧
      ∀ (i : Nat) (r p : InternalTextPart), runs[i]? = some r → parts[i]? = some p →
        ∀ k : String,
          ((ObjMap.get r.style k).isSome = true →
            ObjMap.get p.style k = ObjMap.get r.style k) ∧
          (ObjMap.get r.style k = none →
            ObjMap.get p.style k = ObjMap.get (withNormalizedColor lib style) k) := by
  rcases normalizeText_bullet_parts lib children style rtlMode lang opts runs h with
    ⟨parts, hok, hlen, hidx⟩
  refine ⟨parts, hok, hlen, ?_⟩
  intro i r p hr hp k
  rw [hidx i, hr, Option.map_some'] at hp
  injection hp with hpe
  subst hpe
  constructor
  · intro hs
    rcases Option.isSome_iff_exists.mp hs with ⟨v, hv⟩
    simp only [bulletChildPart]
    rw [objMapGet_spread_some _ _ _ _ hv, hv]
  · intro hn
    simp only [bulletChildPart]
    rw [objMapGet_spread_none _ _ _ hn]

/-- C2 witness: the theorem applied to a bold-styled bullet wrapping the
two plain runs "a" and "b". -/
theorem c2_witness :
    (normalizeText sampleColorLib (.arr [.str "a", .str "b"]) = .ok sampleRuns) ∧
    (∃ parts, normalizeText sampleColorLib
          (.bullet (.arr [.str "a", .str "b"])
            (some [("bold", some (.bool true))]) none none []) = .ok parts ∧
        parts.length = sampleRuns.length ∧
        ∀ (i : Nat) (r p : InternalTextPart), sampleRuns[i]? = some r → parts[i]? = some p →
          ∀ k : String,
            ((ObjMap.get r.style k).isSome = true →
              ObjMap.get p.style k = ObjMap.get r.style k) ∧
            (ObjMap.get r.style k = none →
              ObjMap.get p.style k =
                ObjMap.get (withNormalizedColor sampleColorLib
                  (some [("bold", some (.bool true))])) k)) :=
  ⟨by simp [normalizeText, normalizeFlat, normalizeStep, normalizeArr,
      isReactElementOrElementArray, TextChild.isElem, flattenChildren, flattenList,
      Bind.bind, Except.bind, sampleRuns],
   c2_bullet_style_fallback sampleColorLib (.arr [.str "a", .str "b"])
     (some [("bold", some (.bool true))]) none none [] sampleRuns
     (by simp [normalizeText, normalizeFlat, normalizeStep, normalizeArr,
        isReactElementOrElementArray, TextChild.isElem, flattenChildren, flattenList,
        Bind.bind, Except.bind, sampleRuns])⟩

/-- C9 (confirmed): when normalizeText flattens a bullet marker, the
marker's rtlMode and lang fields are written onto every nested run that
does not already have its own rtlMode/lang key, and a nested run that has
its own key (even with value undefined) keeps its own value. -/
theorem c9_bullet_rtl_lang_propagation (lib : ColorLib) (children : TextChild)
    (style : Option StyleObj) (rtlMode : Option Bool) (lang : Option String)
    (opts : List (String × Option JVal)) (runs : List InternalTextPart)
    (h : normalizeText lib children = .ok runs) :
    ∃ parts, normalizeText lib (.bullet children style rtlMode lang opts) = .ok parts ∧
      parts.length = runs.length ∧
      ∀ (i : Nat) (r p : InternalTextPart), runs[i]? = some r → parts[i]? = some p →
        ((r.rtlMode = .absent → p.rtlMode = JOpt.ofOpt rtlMode) ∧
         (r.rtlMode ≠ .absent → p.rtlMode = r.rtlMode) ∧
         (r.lang = .absent → p.lang = JOpt.ofOpt lang) ∧
         (r.lang ≠ .absent → p.lang = r.lang)) := by
  rcases normalizeText_bullet_parts lib children style rtlMode lang opts runs h with
    ⟨parts, hok, hlen, hidx⟩
  refine ⟨parts, hok, hlen, ?_⟩
  intro i r p hr hp
  rw [hidx i, hr, Option.map_some'] at hp
  injection hp with hpe
  subst hpe
  refine ⟨?_, ?_, ?_, ?_⟩
  · intro ha
    simp [bulletChildPart, ha, JOpt.overwrite]
  · intro ha
    simp [bulletChildPart, joptOverwrite_ne_absent _ _ ha]
  · intro ha
    simp [bulletChildPart, ha, JOpt.overwrite]
  · intro ha
    simp [bulletChildPart, joptOverwrite_ne_absent _ _ ha]

/-- C9 witness: the theorem applied to a bullet with rtlMode true and
lang "he" wrapping two plain runs. -/
theorem c9_witness :
    (normalizeText sampleColorLib (.arr [.str "a", .str "b"]) = .ok sampleRuns) ∧
    (∃ parts, normalizeText sampleColorLib
          (.bullet (.arr [.str "a", .str "b"]) none (some true) (some "he") []) = .ok parts ∧
        parts.length = sampleRuns.length ∧
        ∀ (i : Nat) (r p : InternalTextPart), sampleRuns[i]? = some r → parts[i]? = some p →
          ((r.rtlMode = .absent → p.rtlMode = JOpt.ofOpt (some true)) ∧
           (r.rtlMode ≠ .absent → p.rtlMode = r.rtlMode) ∧
           (r.lang = .absent → p.lang = JOpt.ofOpt (some "he")) ∧
           (r.lang ≠ .absent → p.lang = r.lang))) :=
  ⟨by simp [normalizeText, normalizeFlat, normalizeStep, normalizeArr,
      isReactElementOrElementArray, TextChild.isElem, flattenChildren, flattenList,
      Bind.bind, Except.bind, sampleRuns],
   c9_bullet_rtl_lang_propagation sampleColorLib (.arr [.str "a", .str "b"]) none
     (some true) (some "he") [] sampleRuns
     (by simp [normalizeText, normalizeFlat, normalizeStep, normalizeArr,
        isReactElementOrElementArray, TextChild.isElem, flattenChildren, flattenList,
        Bind.bind, Except.bind, sampleRuns])⟩


theorem normalizeFlat_append (lib : ColorLib) (a b : List TextChild) :
    normalizeFlat lib (a ++ b) = (do
      let pa ← normalizeFlat lib a
      let pb ← normalizeFlat lib b
      Except.ok (pa ++ pb)) := by
  induction a with
  | nil =>
      rw [List.nil_append, normalizeFlat]
      cases hb : normalizeFlat lib b <;> simp [Bind.bind, Except.bind]
  | cons x rest ih =>
      simp only [List.cons_append, normalizeFlat, ih]
      cases hs : normalizeStep lib x with
      | error e => simp [Bind.bind, Except.bind]
      | ok parts =>
          cases hr : normalizeFlat lib rest with
          | error e => simp [Bind.bind, Except.bind]
          | ok pr =>
              cases hb : normalizeFlat lib b with
              | error e => simp [Bind.bind, Except.bind]
              | ok pb => simp [Bind.bind, Except.bind, List.append_assoc]

mutual

theorem normalizeFlat_flattenChildren (lib : ColorLib) (t : TextChild) :
    normalizeFlat lib (flattenChildren t) = normalizeText lib t := by
  match t with
  | .str s =>
      rw [flattenChildren, normalizeFlat, normalizeFlat, normalizeStep, normalizeText]
      simp [isReactElementOrElementArray, Bind.bind, Except.bind]
  | .num n =>
      rw [flattenChildren, normalizeFlat, normalizeFlat, normalizeStep, normalizeText]
      simp [isReactElementOrElementArray, Bind.bind, Except.bind]
  | .link a b c d e f g =>
      rw [normalizeText]
      simp [isReactElementOrElementArray]
  | .bullet a b c d e =>
      rw [normalizeText]
      simp [isReactElementOrElementArray]
  | .arr xs =>
      have hl := normalizeFlat_flattenList lib xs
      rw [flattenChildren, hl, normalizeText]
      by_cases hall : (xs.all TextChild.isElem) = true
      · simp only [isReactElementOrElementArray, hall, if_true, flattenChildren]
        exact hl.symm
      · simp [isReactElementOrElementArray, hall]
termination_by 2 * tcWeight t
decreasing_by
  simp only [tcWeight]
  omega

theorem normalizeFlat_flattenList (lib : ColorLib) (xs : List TextChild) :
    normalizeFlat lib (flattenList xs) = normalizeArr lib xs := by
  match xs with
  | [] => rw [flattenList, normalizeFlat, normalizeArr]
  | x :: rest =>
      rw [flattenList, normalizeFlat_append, normalizeFlat_flattenChildren lib x,
        normalizeFlat_flattenList lib rest, normalizeArr]
termination_by 2 * tcListWeight xs + 1
decreasing_by
  · simp only [tcListWeight]
    omega
  · have h := tcWeight_pos x
    simp only [tcListWeight]
    omega

end

/-- C8 (confirmed): normalizeText on an array input equals the
concatenation, in element order, of normalizeText applied to each element
(normalizeArr is exactly that concatenation), and flattening
["a", ["b", "c"]] yields the three runs for "a", "b", "c" in that order.
Purity holds by construction: the embedding is a pure function, so two
calls on the same input are definitionally identical. -/
theorem c8_array_concat_and_purity (lib : ColorLib) (xs : List TextChild) :
    normalizeText lib (.arr xs) = normalizeArr lib xs ∧
    normalizeText lib (.arr [.str "a", .arr [.str "b", .str "c"]]) =
      .ok [{ text := "a", style := [] }, { text := "b", style := [] },
           { text := "c", style := [] }] := by
  constructor
  · rw [normalizeText]
    by_cases hall : (xs.all TextChild.isElem) = true
    · simp only [isReactElementOrElementArray, hall, if_true, flattenChildren]
      exact normalizeFlat_flattenList lib xs
    · simp [isReactElementOrElementArray, hall]
  · simp [normalizeText, normalizeArr, normalizeFlat, normalizeStep,
      isReactElementOrElementArray, TextChild.isElem, flattenChildren, flattenList,
      Bind.bind, Except.bind]


/-! ## Claims about colors, coordinates and missing styles -/

/-- C3 (corrected): for every visual node of any kind, including line,
absence of the style field makes normalizeSlideObject fail with the
missing-style error naming the node's type tag.  The original claim
exempted line nodes; the source checks the style attribute before the
line branch, so a line without style fails too (see c3_counterexample). -/
theorem c3_missing_style (lib : ColorLib) (node : VisualNode)
    (h : node.styleMissing = true) :
    normalizeSlideObject lib node = .error (.missingStyle (nodeTag node)) := by
  rw [normalizeSlideObject.eq_def]
  simp [h]

/-- C3 counterexample: a line node without a style field is not exempt;
it fails with the missing-style error naming "line". -/
theorem c3_counterexample :
    normalizeSlideObject sampleColorLib (.line none 0 0 0 0) =
      .error (.missingStyle "line") := by
  rw [normalizeSlideObject.eq_def]
  simp [VisualNode.styleMissing, nodeTag]

/-- C3 witness: the amended theorem applied to a text node without a
style field. -/
theorem c3_witness :
    (VisualNode.styleMissing (.text none none) = true) ∧
    normalizeSlideObject sampleColorLib (.text none none) =
      .error (.missingStyle "text") :=
  ⟨rfl, c3_missing_style sampleColorLib (.text none none) rfl⟩

/-- C4 counterexample: at parsed alpha fraction 1/200 the code returns
transparency 99 while the claimed formula round(100 x (1 - a)) gives 100;
the code computes 100 - round(100 x a), which differs at half-integers. -/
theorem c4_counterexample :
    normalizeHexOrComplexColor blackTinyLib "rgba(0,0,0,0.005)" = .solid "000000" 99 ∧
    jsRound (100 * (1 - blackTinyLib.alphaOf "rgba(0,0,0,0.005)")) = 100 ∧
    (99 : Int) ≠ 100 := by
  refine ⟨?_, ?_, by decide⟩
  · rw [normalizeHexOrComplexColor]
    have h1 : blackTinyLib.alphaOf "rgba(0,0,0,0.005)" = 1/200 := rfl
    have h3 : blackTinyLib.hex "rgba(0,0,0,0.005)" = "#000000" := rfl
    have h2 : ((blackTinyLib.hex "rgba(0,0,0,0.005)").drop 1).toUpper = "000000" := by
      rw [h3, String.drop_eq, String.toUpper, String.map_eq]
      decide
    rw [h1, h2]
    norm_num [jsRound]
  · have h1 : blackTinyLib.alphaOf "rgba(0,0,0,0.005)" = 1/200 := rfl
    rw [h1]
    norm_num [jsRound]

/-- C4 (corrected): for every color input whose parsed alpha fraction is
in [0,1], alpha = 1 yields the bare uppercase hex string, and otherwise a
solid record whose alpha is 100 - round(100 x a); that value lies in
[0,100] and agrees with the claimed round(100 x (1 - a)) whenever
100 x a is not exactly a half-integer. -/
theorem c4_alpha_inversion (lib : ColorLib) (s : String)
    (h0 : 0 ≤ lib.alphaOf s) (h1 : lib.alphaOf s ≤ 1) :
    (lib.alphaOf s = 1 →
      normalizeHexOrComplexColor lib s = .hex (normalizeHexColor lib s)) ∧
    (lib.alphaOf s ≠ 1 →
      normalizeHexOrComplexColor lib s =
        .solid (normalizeHexColor lib s) (100 - jsRound (lib.alphaOf s * 100)) ∧
      0 ≤ 100 - jsRound (lib.alphaOf s * 100) ∧
      100 - jsRound (lib.alphaOf s * 100) ≤ 100 ∧
      (Int.fract (lib.alphaOf s * 100) ≠ 1 / 2 →
        100 - jsRound (lib.alphaOf s * 100) = jsRound (100 * (1 - lib.alphaOf s)))) := by
  constructor
  · intro he
    rw [normalizeHexOrComplexColor, normalizeHexColor]
    simp [he]
  · intro hne
    have hb1 : (0:Int) ≤ jsRound (lib.alphaOf s * 100) := by
      rw [jsRound]
      apply Int.floor_nonneg.mpr
      nlinarith
    have hb2 : jsRound (lib.alphaOf s * 100) ≤ 100 := by
      rw [jsRound]
      have hm : lib.alphaOf s * 100 + 1/2 ≤ (201:ℚ)/2 := by nlinarith
      calc ⌊lib.alphaOf s * 100 + 1/2⌋ ≤ ⌊(201:ℚ)/2⌋ := Int.floor_le_floor hm
        _ = 100 := by norm_num
    refine ⟨?_, by omega, by omega, ?_⟩
    · rw [normalizeHexOrComplexColor, normalizeHexColor]
      simp [hne]
    · intro hf
      set x := lib.alphaOf s * 100 with hx
      set k := ⌊x⌋ with hk
      have hfr : Int.fract x = x - (k:ℚ) := rfl
      have hkle : (k:ℚ) ≤ x := Int.floor_le x
      have hklt : x < (k:ℚ) + 1 := Int.lt_floor_add_one x
      have harg : 100 * (1 - lib.alphaOf s) + 1/2 = 100 - x + 1/2 := by
        rw [hx]
        ring
      rw [jsRound, jsRound, harg]
      rcases lt_or_gt_of_ne hf with hlt | hgt
      · rw [hfr] at hlt
        have hfl1 : ⌊x + 1/2⌋ = k := by
          rw [Int.floor_eq_iff]
          constructor
          · linarith
          · linarith
        have hfl2 : ⌊100 - x + 1/2⌋ = 100 - k := by
          rw [Int.floor_eq_iff]
          constructor
          · push_cast
            linarith
          · push_cast
            linarith
        rw [hfl1, hfl2]
      · rw [hfr] at hgt
        have hfl1 : ⌊x + 1/2⌋ = k + 1 := by
          rw [Int.floor_eq_iff]
          constructor
          · push_cast
            linarith
          · push_cast
            linarith
        have hfl2 : ⌊100 - x + 1/2⌋ = 100 - (k + 1) := by
          rw [Int.floor_eq_iff]
          constructor
          · push_cast
            linarith
          · push_cast
            linarith
        rw [hfl1, hfl2]

/-- C4 witness: the theorem applied at parsed alpha 1/4 over black,
yielding the solid record with color "000000" and alpha 75. -/
theorem c4_witness :
    (0 ≤ blackQuarterLib.alphaOf "rgba(0,0,0,0.25)") ∧
    (blackQuarterLib.alphaOf "rgba(0,0,0,0.25)" ≤ 1) ∧
    (blackQuarterLib.alphaOf "rgba(0,0,0,0.25)" ≠ 1) ∧
    normalizeHexOrComplexColor blackQuarterLib "rgba(0,0,0,0.25)" = .solid "000000" 75 := by
  have ha : blackQuarterLib.alphaOf "rgba(0,0,0,0.25)" = 1/4 := rfl
  refine ⟨by rw [ha]; norm_num, by rw [ha]; norm_num, by rw [ha]; norm_num, ?_⟩
  have h := ((c4_alpha_inversion blackQuarterLib "rgba(0,0,0,0.25)"
    (by rw [ha]; norm_num) (by rw [ha]; norm_num)).2 (by rw [ha]; norm_num)).1
  rw [h]
  have h3 : blackQuarterLib.hex "rgba(0,0,0,0.25)" = "#000000" := rfl
  have h2 : normalizeHexColor blackQuarterLib "rgba(0,0,0,0.25)" = "000000" := by
    rw [normalizeHexColor, h3, String.drop_eq, String.toUpper, String.map_eq]
    decide
  rw [h2, ha]
  norm_num [jsRound]

theorem percentMatch_iff (s : String) :
    percentMatch s = true ↔
      ∃ ds : List Char, s.data = ds ++ ['%'] ∧ ds ≠ [] ∧ ds.all Char.isDigit := by
  rw [percentMatch]
  cases h : s.data.reverse with
  | nil =>
      have hd : s.data = [] := by
        have h2 := congrArg List.reverse h
        simpa using h2
      simp [hd]
  | cons c rest =>
      have hd : s.data = rest.reverse ++ [c] := by
        have h2 := congrArg List.reverse h
        simpa using h2
      constructor
      · intro hb
        simp only [Bool.and_eq_true, beq_iff_eq] at hb
        refine ⟨rest.reverse, ?_, ?_, ?_⟩
        · rw [hd, hb.1.1]
        · simp only [ne_eq, List.reverse_eq_nil_iff]
          intro he
          subst he
          simp at hb
        · rw [List.all_reverse]
          exact hb.2
      · intro hex
        rcases hex with ⟨ds, hds, hne, hall⟩
        rw [hd] at hds
        have hrev := congrArg List.reverse hds
        simp only [List.reverse_append, List.reverse_cons, List.reverse_nil,
          List.nil_append, List.reverse_reverse, List.cons_append] at hrev
        rw [List.cons.injEq] at hrev
        obtain ⟨hc, hrest⟩ := hrev
        simp only [Bool.and_eq_true, beq_iff_eq]
        refine ⟨⟨hc, ?_⟩, ?_⟩
        · rw [hrest]
          cases hds2 : ds.reverse with
          | nil =>
              rw [List.reverse_eq_nil_iff] at hds2
              exact absurd hds2 hne
          | cons y ys => rfl
        · rw [hrest, List.all_reverse]
          exact hall



/-- C5 (confirmed): normalizeCoordinate returns numbers unchanged,
returns strings unchanged exactly when they fully match one-or-more digits
followed by a percent sign and otherwise fails with the invalid-position
error naming the value, and returns the caller default on null or
undefined; including the four concrete examples of the claim. -/
theorem c5_coordinate_passthrough :
    (∀ (n d : Rat), normalizeCoordinate (some (.num n)) d = .ok (.num n)) ∧
    (∀ (s : String) (d : Rat), normalizeCoordinate (some (.str s)) d =
      if percentMatch s then .ok (.str s) else .error (.invalidPosition s)) ∧
    (∀ s : String, percentMatch s = true ↔
      ∃ ds : List Char, s.data = ds ++ ['%'] ∧ ds ≠ [] ∧ ds.all Char.isDigit) ∧
    (∀ d : Rat, normalizeCoordinate none d = .ok (.num d)) ∧
    (∀ d : Rat, normalizeCoordinate (some .jnull) d = .ok (.num d)) ∧
    normalizeCoordinate (some (.num 50)) 0 = .ok (.num 50) ∧
    normalizeCoordinate (some (.str "50%")) 0 = .ok (.str "50%") ∧
    normalizeCoordinate none 7 = .ok (.num 7) ∧
    normalizeCoordinate (some (.str "50")) 0 = .error (.invalidPosition "50") := by
  refine ⟨fun n d => rfl, fun s d => rfl, percentMatch_iff, fun d => rfl, fun d => rfl,
    rfl, ?_, rfl, ?_⟩
  · rw [normalizeCoordinate]
    have hp : percentMatch "50%" = true := by decide
    rw [hp]
    rfl
  · rw [normalizeCoordinate]
    have hp : percentMatch "50" = false := by decide
    rw [hp]
    rfl


/-! ## Claims about tables and null filtering -/

theorem normalizeRow_ok (lib : ColorLib) (r : List TableCell)
    (nr : List (Option InternalSlideObject)) (h : normalizeRow lib r = .ok nr) :
    nr.length = r.length ∧
    ∀ (j : Nat) (c : TableCell), r[j]? = some c →
      ∃ o, nr[j]? = some o ∧ normalizeCell lib c = .ok o := by
  induction r generalizing nr with
  | nil =>
      rw [normalizeRow] at h
      injection h with h2
      subst h2
      exact ⟨rfl, by intro j c hc; simp at hc⟩
  | cons c rest ih =>
      rw [normalizeRow] at h
      rcases (exceptBind_ok _ _ _).mp h with ⟨o, ho, h2⟩
      rcases (exceptBind_ok _ _ _).mp h2 with ⟨orest, horest, h3⟩
      injection h3 with h4
      subst h4
      rcases ih orest horest with ⟨hlen, hidx⟩
      constructor
      · simp [hlen]
      · intro j c2 hc
        cases j with
        | zero =>
            simp only [List.getElem?_cons_zero] at hc
            injection hc with hc2
            subst hc2
            exact ⟨o, by simp, ho⟩
        | succ n =>
            simp only [List.getElem?_cons_succ] at hc ⊢
            exact hidx n c2 hc

theorem normalizeRows_ok (lib : ColorLib) (rs : List (List TableCell))
    (nrs : List (List (Option InternalSlideObject)))
    (h : normalizeRows lib rs = .ok nrs) :
    nrs.length = rs.length ∧
    ∀ (i : Nat) (r : List TableCell), rs[i]? = some r →
      ∃ nr, nrs[i]? = some nr ∧ normalizeRow lib r = .ok nr := by
  induction rs generalizing nrs with
  | nil =>
      rw [normalizeRows] at h
      injection h with h2
      subst h2
      exact ⟨rfl, by intro i r hr; simp at hr⟩
  | cons r rest ih =>
      rw [normalizeRows] at h
      rcases (exceptBind_ok _ _ _).mp h with ⟨nr, hnr, h2⟩
      rcases (exceptBind_ok _ _ _).mp h2 with ⟨nrest, hnrest, h3⟩
      injection h3 with h4
      subst h4
      rcases ih nrest hnrest with ⟨hlen, hidx⟩
      constructor
      · simp [hlen]
      · intro i r2 hr
        cases i with
        | zero =>
            simp only [List.getElem?_cons_zero] at hr
            injection hr with hr2
            subst hr2
            exact ⟨nr, by simp, hnr⟩
        | succ n =>
            simp only [List.getElem?_cons_succ] at hr ⊢
            exact hidx n r2 hr

/-- C7 (confirmed): in a table node, every cell that is a bare string
normalizes to a text cell with style keys x = 0, y = 0, w = 0, h = 0 and
color null, containing exactly one run whose text is that string and whose
style is empty; row order and cell order are preserved positionally. -/
theorem c7_table_string_cells (lib : ColorLib) (st : TableStyleIn)
    (rows : List (List TableCell)) (nrows : List (List (Option InternalSlideObject)))
    (tstyle : TableStyleOut)
    (h : normalizeSlideObject lib (.table (some st) rows) =
      .ok (some (.table nrows tstyle))) :
    nrows.length = rows.length ∧
    ∀ (i : Nat) (r : List TableCell), rows[i]? = some r →
      ∃ nr, nrows[i]? = some nr ∧ nr.length = r.length ∧
        ∀ (j : Nat) (s : String), r[j]? = some (.strCell s) →
          nr[j]? = some (some (.text
            { text := [{ text := s, style := [] }]
              style := [("x", some (.num 0)), ("y", some (.num 0)), ("w", some (.num 0)),
                ("h", some (.num 0)), ("color", some .jnull)] })) := by
  rw [normalizeSlideObject.eq_def] at h
  simp only [VisualNode.styleMissing, Option.isNone_some, Bool.false_eq_true, if_false] at h
  rcases (exceptBind_ok _ _ _).mp h with ⟨coords, hcoords, h2⟩
  rcases (exceptBind_ok _ _ _).mp h2 with ⟨nrows2, hnrows, h3⟩
  injection h3 with h4
  injection h4 with h5
  rw [InternalSlideObject.table.injEq] at h5
  rcases h5 with ⟨h5a, h5b⟩
  rw [h5a] at hnrows
  rcases normalizeRows_ok lib rows nrows hnrows with ⟨hlen, hidx⟩
  refine ⟨hlen, ?_⟩
  intro i r hr
  rcases hidx i r hr with ⟨nr, hnr, hrowok⟩
  rcases normalizeRow_ok lib r nr hrowok with ⟨hrlen, hrowidx⟩
  refine ⟨nr, hnr, hrlen, ?_⟩
  intro j s hcell
  rcases hrowidx j (.strCell s) hcell with ⟨o, ho, hcellok⟩
  rw [normalizeCell] at hcellok
  injection hcellok with h6
  rw [ho, ← h6]

/-- Concrete evaluation of a table of bare string cells, used by the C7
witness. -/
theorem c7_eval :
    normalizeSlideObject sampleColorLib (.table (some {}) sampleTableRows) =
      .ok (some (.table sampleNRows sampleTableStyleOut)) := by
  rw [normalizeSlideObject.eq_def]
  simp [VisualNode.styleMissing, nodeTag, normalizeCoordinates, normalizeCoordinate,
    normalizeRows, normalizeRow, normalizeCell, Bind.bind, Except.bind, truthyVal,
    jsNullish, sampleTableRows, sampleNRows, sampleCellOut, sampleTableStyleOut]

/-- C7 witness: the theorem applied to the concrete table
[["a", "b"], ["c"]]. -/
theorem c7_witness :
    (normalizeSlideObject sampleColorLib (.table (some {}) sampleTableRows) =
      .ok (some (.table sampleNRows sampleTableStyleOut))) ∧
    sampleNRows.length = sampleTableRows.length ∧
    (∀ (i : Nat) (r : List TableCell), sampleTableRows[i]? = some r →
      ∃ nr, sampleNRows[i]? = some nr ∧ nr.length = r.length ∧
        ∀ (j : Nat) (s : String), r[j]? = some (.strCell s) →
          nr[j]? = some (some (.text
            { text := [{ text := s, style := [] }]
              style := [("x", some (.num 0)), ("y", some (.num 0)), ("w", some (.num 0)),
                ("h", some (.num 0)), ("color", some .jnull)] }))) :=
  ⟨c7_eval, c7_table_string_cells sampleColorLib {} sampleTableRows sampleNRows
    sampleTableStyleOut c7_eval⟩


theorem normalizeSlideObject_ne_none (lib : ColorLib) (node : VisualNode)
    (o : Option InternalSlideObject) (h : normalizeSlideObject lib node = .ok o) :
    o.isSome = true := by
  rw [normalizeSlideObject.eq_def] at h
  by_cases hm : node.styleMissing = true
  · rw [if_pos hm] at h
    cases h
  · rw [if_neg hm] at h
    cases node with
    | line st x1 y1 x2 y2 =>
        injection h with h2
        rw [← h2]
        rfl
    | text st children =>
        rcases (exceptBind_ok _ _ _).mp h with ⟨c1, hc1, h2⟩
        rcases (exceptBind_ok _ _ _).mp h2 with ⟨c2, hc2, h3⟩
        injection h3 with h4
        rw [← h4]
        rfl
    | tableCell st children colSpan rowSpan =>
        rcases (exceptBind_ok _ _ _).mp h with ⟨c1, hc1, h2⟩
        rcases (exceptBind_ok _ _ _).mp h2 with ⟨c2, hc2, h3⟩
        injection h3 with h4
        rw [← h4]
        rfl
    | image st src =>
        rcases (exceptBind_ok _ _ _).mp h with ⟨c1, hc1, h2⟩
        injection h2 with h4
        rw [← h4]
        rfl
    | shape st shapeType children =>
        rcases (exceptBind_ok _ _ _).mp h with ⟨c1, hc1, h2⟩
        cases children with
        | none =>
            rcases (exceptBind_ok _ _ _).mp h2 with ⟨c2, hc2, h3⟩
            injection h3 with h4
            rw [← h4]
            rfl
        | some c =>
            rcases (exceptBind_ok _ _ _).mp h2 with ⟨c2, hc2, h3⟩
            injection h3 with h4
            rw [← h4]
            rfl
    | table st rows =>
        rcases (exceptBind_ok _ _ _).mp h with ⟨c1, hc1, h2⟩
        rcases (exceptBind_ok _ _ _).mp h2 with ⟨c2, hc2, h3⟩
        injection h3 with h4
        rw [← h4]
        rfl
    | unknown st tag => cases h

theorem mapObjects_ok (lib : ColorLib) (cs : List VisualNode)
    (l : List (Option InternalSlideObject)) (h : mapObjects lib cs = .ok l) :
    l.length = cs.length ∧ ∀ x ∈ l, x.isSome = true := by
  induction cs generalizing l with
  | nil =>
      rw [mapObjects] at h
      injection h with h2
      subst h2
      exact ⟨rfl, by simp⟩
  | cons v rest ih =>
      rw [mapObjects] at h
      rcases (exceptBind_ok _ _ _).mp h with ⟨o, ho, h2⟩
      rcases (exceptBind_ok _ _ _).mp h2 with ⟨orest, horest, h3⟩
      injection h3 with h4
      subst h4
      rcases ih orest horest with ⟨hlen, hall⟩
      refine ⟨by simp [hlen], ?_⟩
      intro x hx
      rcases List.mem_cons.mp hx with hx | hx
      · subst hx
        exact normalizeSlideObject_ne_none lib v x ho
      · exact hall x hx

theorem filterPresent_length (l : List (Option InternalSlideObject))
    (h : ∀ x ∈ l, x.isSome = true) : (filterPresent l).length = l.length := by
  induction l with
  | nil => rfl
  | cons x rest ih =>
      have hx := h x (by simp)
      rcases Option.isSome_iff_exists.mp hx with ⟨v, hv⟩
      subst hv
      have ih2 := ih (fun y hy => h y (by simp [hy]))
      simp only [filterPresent, List.filterMap_cons, id] at ih2 ⊢
      simp [ih2]

/-- C10 (confirmed): normalizeSlideObject never returns a successful
null: every ok result is some canonical node, and for every slide or
master slide whose children normalize successfully the objects list has
exactly one entry per child, so the null-discarding filter removes
nothing. -/
theorem c10_no_null_objects (lib : ColorLib) :
    (∀ (node : VisualNode) (o : Option InternalSlideObject),
      normalizeSlideObject lib node = .ok o → o.isSome = true) ∧
    (∀ (props : SlideProps) (slide : InternalSlide) (cs : List VisualNode),
      props.children = some cs → normalizeSlide lib props = .ok slide →
        slide.objects.length = cs.length) ∧
    (∀ (props : MasterSlideProps) (slide : InternalMasterSlide) (cs : List VisualNode),
      props.children = some cs → normalizeMasterSlide lib props = .ok slide →
        slide.objects.length = cs.length) := by
  refine ⟨normalizeSlideObject_ne_none lib, ?_, ?_⟩
  · intro props slide cs hch h
    rw [normalizeSlide, hch] at h
    rcases (exceptBind_ok _ _ _).mp h with ⟨objects, hobj, h2⟩
    rcases (exceptMap_ok _ _ _).mp hobj with ⟨l, hl, hfp⟩
    injection h2 with h3
    rcases mapObjects_ok lib cs l hl with ⟨hlen, hall⟩
    rw [← h3]
    show objects.length = cs.length
    rw [← hfp, filterPresent_length l hall, hlen]
  · intro props slide cs hch h
    rw [normalizeMasterSlide, hch] at h
    rcases (exceptBind_ok _ _ _).mp h with ⟨objects, hobj, h2⟩
    rcases (exceptMap_ok _ _ _).mp hobj with ⟨l, hl, hfp⟩
    injection h2 with h3
    rcases mapObjects_ok lib cs l hl with ⟨hlen, hall⟩
    rw [← h3]
    show objects.length = cs.length
    rw [← hfp, filterPresent_length l hall, hlen]

/-- C10 witness: the theorem applied to a concrete line node. -/
theorem c10_witness :
    (normalizeSlideObject sampleColorLib (.line (some {}) 0 0 0 0) =
      .ok (some (.line 0 0 0 0 { color := .jnull, width := .jnull }))) ∧
    (some (.line 0 0 0 0
      { color := .jnull, width := .jnull }) : Option InternalSlideObject).isSome = true :=
  have heval : normalizeSlideObject sampleColorLib (.line (some {}) 0 0 0 0) =
      .ok (some (.line 0 0 0 0 { color := .jnull, width := .jnull })) := by
    rw [normalizeSlideObject.eq_def]
    simp [VisualNode.styleMissing, colorOrNull, truthyVal, jsNullish]
  ⟨heval, (c10_no_null_objects sampleColorLib).1 _ _ heval⟩


/-! ## Claims about the presentation normalizer -/

theorem normalizeMasterSlide_name (lib : ColorLib) (p : MasterSlideProps)
    (m : InternalMasterSlide) (h : normalizeMasterSlide lib p = .ok m) :
    m.name = p.name := by
  rw [normalizeMasterSlide] at h
  cases hc : p.children with
  | none =>
      rw [hc] at h
      rcases (exceptBind_ok _ _ _).mp h with ⟨objects, hobj, h2⟩
      injection h2 with h3
      rw [← h3]
  | some cs =>
      rw [hc] at h
      rcases (exceptBind_ok _ _ _).mp h with ⟨objects, hobj, h2⟩
      injection h2 with h3
      rw [← h3]

theorem mapMasters_append (lib : ColorLib) (a b : List MasterSlideProps) :
    mapMasters lib (a ++ b) = (do
      let la ← mapMasters lib a
      let lb ← mapMasters lib b
      Except.ok (la ++ lb)) := by
  induction a with
  | nil =>
      rw [List.nil_append, mapMasters]
      cases hb : mapMasters lib b <;> simp [Bind.bind, Except.bind]
  | cons x rest ih =>
      cases hs : normalizeMasterSlide lib x with
      | error e =>
          simp [List.cons_append, mapMasters, hs, Bind.bind, Except.bind]
      | ok m =>
          cases hr : mapMasters lib rest with
          | error e =>
              simp [List.cons_append, mapMasters, hs, hr, ih, Bind.bind, Except.bind]
          | ok mr =>
              cases hb : mapMasters lib b with
              | error e =>
                  simp [List.cons_append, mapMasters, hs, hr, hb, ih, Bind.bind, Except.bind]
              | ok mb =>
                  simp [List.cons_append, mapMasters, hs, hr, hb, ih, Bind.bind, Except.bind]

theorem mapMasters_mem (lib : ColorLib) (ms : List MasterSlideProps)
    (out : List InternalMasterSlide) (h : mapMasters lib ms = .ok out) :
    ∀ x ∈ out, ∃ p ∈ ms, normalizeMasterSlide lib p = .ok x := by
  induction ms generalizing out with
  | nil =>
      rw [mapMasters] at h
      injection h with h2
      subst h2
      simp
  | cons p rest ih =>
      rw [mapMasters] at h
      rcases (exceptBind_ok _ _ _).mp h with ⟨m, hm, h2⟩
      rcases (exceptBind_ok _ _ _).mp h2 with ⟨mrest, hmrest, h3⟩
      injection h3 with h4
      subst h4
      intro x hx
      rcases List.mem_cons.mp hx with hx | hx
      · subst hx
        exact ⟨p, by simp, hm⟩
      · rcases ih mrest hmrest x hx with ⟨q, hq, hqok⟩
        exact ⟨q, by simp [hq], hqok⟩

theorem masterNodes_mem (cs : List PresNode) (p : MasterSlideProps)
    (h : p ∈ masterNodes cs) : PresNode.masterN p ∈ cs := by
  rw [masterNodes] at h
  rcases List.mem_filterMap.mp h with ⟨n, hn, hf⟩
  cases n with
  | slideN q => simp at hf
  | masterN q =>
      simp only [Option.some.injEq] at hf
      rw [← hf]
      exact hn
  | otherN t => simp at hf

/-- C6 (confirmed): when the presentation children contain two or more
master slides with the same name, the resulting name-keyed mapping has
exactly one entry for that name, equal to the normalization of the last
master slide declared with it; slide children are mapped in order into the
slides list; and children of any other type tag are silently ignored
(inserting or removing one leaves the result unchanged). -/
theorem c6_master_last_write_wins (lib : ColorLib) (props : PresentationProps)
    (cs l1 l2 : List PresNode) (m2 : MasterSlideProps)
    (pres : InternalPresentation) (nm2 : InternalMasterSlide)
    (hch : props.children = some cs)
    (hsplit : cs = l1 ++ .masterN m2 :: l2)
    (_hdup : ∃ m1, PresNode.masterN m1 ∈ l1 ∧ m1.name = m2.name)
    (hlast : ∀ m : MasterSlideProps, PresNode.masterN m ∈ l2 → m.name ≠ m2.name)
    (hjsx : normalizeJsx lib props = .ok pres)
    (hm2 : normalizeMasterSlide lib m2 = .ok nm2) :
    ObjMap.get pres.masterSlides m2.name = some nm2 ∧
    pres.masterSlides.countP (fun e => e.1 == m2.name) = 1 ∧
    (∃ ns, mapSlides lib (slideNodes cs) = .ok ns ∧ pres.slides = ns) ∧
    (∀ (tag : String) (csA csB : List PresNode),
      normalizeJsx lib { props with children := some (csA ++ .otherN tag :: csB) } =
        normalizeJsx lib { props with children := some (csA ++ csB) }) := by
  rw [normalizeJsx.eq_def, hch] at hjsx
  rcases (exceptBind_ok _ _ _).mp hjsx with ⟨slides, hslides, h2⟩
  rcases (exceptBind_ok _ _ _).mp h2 with ⟨masters, hmasters, h3⟩
  injection h3 with h4
  have hmn : masterNodes cs = masterNodes l1 ++ m2 :: masterNodes l2 := by
    rw [hsplit, masterNodes, List.filterMap_append, List.filterMap_cons]
    rfl
  rw [hmn, mapMasters_append] at hmasters
  rcases (exceptBind_ok _ _ _).mp hmasters with ⟨ma, hma, h5⟩
  rcases (exceptBind_ok _ _ _).mp h5 with ⟨mtail, hmtail, h6⟩
  rw [mapMasters, hm2] at hmtail
  rcases (exceptBind_ok _ _ _).mp hmtail with ⟨nm2b, hnm2b, h7⟩
  injection hnm2b with h8
  subst h8
  rcases (exceptBind_ok _ _ _).mp h7 with ⟨mb, hmb, h9⟩
  injection h9 with h10
  subst h10
  injection h6 with h11
  subst h11
  have hnm2name : nm2.name = m2.name := normalizeMasterSlide_name lib m2 nm2 hm2
  have hbnames : ∀ x ∈ mb, x.name ≠ m2.name := by
    intro x hx
    rcases mapMasters_mem lib (masterNodes l2) mb hmb x hx with ⟨q, hq, hqok⟩
    rw [normalizeMasterSlide_name lib q x hqok]
    exact hlast q (masterNodes_mem l2 q hq)
  have hpresm : pres.masterSlides =
      jsFromEntries ((ma ++ nm2 :: mb).map (fun m => (m.name, m))) := by
    rw [← h4]
  have hget : ObjMap.get ((ma ++ nm2 :: mb).map (fun m => (m.name, m))) m2.name =
      some nm2 := by
    rw [List.map_append, objMapGet_append]
    have hnone : ObjMap.get ((nm2 :: mb).map (fun m => (m.name, m))) m2.name =
        some nm2 := by
      have hmbnone : ObjMap.get (mb.map (fun m => (m.name, m))) m2.name = none := by
        apply objMapGet_of_not_mem
        intro hmem
        rcases List.mem_map.mp hmem with ⟨e, he, hek⟩
        rcases List.mem_map.mp he with ⟨m, hm, hme⟩
        rw [← hme] at hek
        exact hbnames m hm hek
      rw [List.map_cons, ObjMap.get, hmbnone]
      simp [hnm2name]
    rw [hnone]
  refine ⟨?_, ?_, ?_, ?_⟩
  · rw [hpresm, jsFromEntries_get]
    exact hget
  · rw [hpresm]
    rw [objMapCountP_key_of_nodup _ _ (jsFromEntries_keys_nodup _)]
    rw [jsFromEntries_get]
    rw [hget]
    rfl
  · refine ⟨slides, hslides, ?_⟩
    rw [← h4]
  · intro tag csA csB
    have hs : slideNodes (csA ++ .otherN tag :: csB) = slideNodes (csA ++ csB) := by
      rw [slideNodes, slideNodes, List.filterMap_append, List.filterMap_append,
        List.filterMap_cons]
    have hm : masterNodes (csA ++ .otherN tag :: csB) = masterNodes (csA ++ csB) := by
      rw [masterNodes, masterNodes, List.filterMap_append, List.filterMap_append,
        List.filterMap_cons]
    rw [normalizeJsx.eq_def, normalizeJsx.eq_def]
    simp only [hs, hm]


/-- Concrete evaluation of the duplicated master slide, used by the C6
witness. -/
theorem c6_eval_m2 : normalizeMasterSlide sampleColorLib masterB = .ok c6nm2 := by
  rw [normalizeMasterSlide]
  simp [masterB, c6nm2, mapObjects, filterPresent, Bind.bind, Except.bind, Except.map,
    truthyVal, jsNullish, colorOrNull, normalizeSlideObject, VisualNode.styleMissing]

/-- Concrete evaluation of a presentation with two master slides named
"m", used by the C6 witness. -/
theorem c6_eval : normalizeJsx sampleColorLib c6props = .ok c6pres := by
  rw [normalizeJsx.eq_def]
  simp [c6props, c6children, c6pres, c6slide1, c6nm2, slideNodes, masterNodes, mapSlides,
    mapMasters, normalizeSlide, normalizeMasterSlide, masterA, masterB, mapObjects,
    filterPresent, normalizeSlideObject, VisualNode.styleMissing, colorOrNull, truthyVal,
    jsNullish, Bind.bind, Except.bind, Except.map, jsFromEntries, ObjMap.spread, ObjMap.set]

/-- C6 witness: the theorem applied to a presentation whose children
hold two masters named "m", one slide and one foreign node. -/
theorem c6_witness :
    (normalizeJsx sampleColorLib c6props = .ok c6pres) ∧
    (normalizeMasterSlide sampleColorLib masterB = .ok c6nm2) ∧
    (ObjMap.get c6pres.masterSlides masterB.name = some c6nm2 ∧
     c6pres.masterSlides.countP (fun e => e.1 == masterB.name) = 1 ∧
     (∃ ns, mapSlides sampleColorLib (slideNodes c6children) = .ok ns ∧
        c6pres.slides = ns) ∧
     (∀ (tag : String) (csA csB : List PresNode),
       normalizeJsx sampleColorLib
           { c6props with children := some (csA ++ .otherN tag :: csB) } =
         normalizeJsx sampleColorLib { c6props with children := some (csA ++ csB) })) :=
  ⟨c6_eval, c6_eval_m2,
    c6_master_last_write_wins sampleColorLib c6props c6children
      [.masterN masterA] [.slideN {}, .otherN "x"] masterB c6pres c6nm2
      rfl rfl ⟨masterA, by simp, rfl⟩
      (by
        intro m hm
        simp only [List.mem_cons, List.mem_singleton] at hm
        rcases hm with hm | hm | hm
        · cases hm
        · cases hm
        · cases hm)
      c6_eval c6_eval_m2⟩

end ReactPptx
